import Mathlib

set_option maxRecDepth 100000
set_option maxHeartbeats 2000000

/-!
Shallow embedding of the TinyShanzaiRogueOSC game engine (`src/game.py`).

Conventions of the embedding:
* Python machine-free `int` becomes `Int`; list indices and sizes are `Nat`.
* The tile grid `self.tiles` (a list of rows indexed `tiles[y][x]`) is embedded
  as a total function `Pos → Tile` (`Pos = Int × Int`, first component `x`);
  a cell outside the rectangle reads as `Tile.wall`, which is sound because the
  source only reads the grid after an `in_bounds` check or at coordinates
  produced by `random.randint(1, width-2)` / `random.randint(1, height-2)`.
* Every call to the `random` module is replaced by an oracle argument: a
  `random.choice` over `n` alternatives becomes a `Fin n`, `random.randint(1,n)`
  becomes `1 + Fin n`, `random.random() < bias` becomes a `Bool`, and the
  coordinate pairs drawn inside `find_random_floor` become a list of positions
  consumed in order (the empty-suffix case models non-termination of the
  unbounded rejection-sampling loop, so level generation returns `Option`).
* The UDP socket is not modelled; the datagrams handed to `sendto` (which never
  influence the game state, all exceptions being suppressed) are recorded in an
  `osc_log` field as (address, arguments) pairs, in emission order.
* The `float` branch of `_osc_pack` (`struct.pack(">f", ...)`) is not modelled:
  no call site of the program passes a float argument.
-/

/-- Tile kinds: the source uses the one-character strings `"#"`, `"."`, `">"`. -/
inductive Tile where
  | wall
  | floor
  | stairsDown
deriving DecidableEq

/-- Display character of a tile, as in the constants `WALL`, `FLOOR`, `STAIRS_DOWN`. -/
def Tile.char : Tile → String
  | .wall => "#"
  | .floor => "."
  | .stairsDown => ">"

/-- `MAX_HP = 10`. -/
def MAX_HP : Int := 10

/-- `Entity` dataclass: position, glyph, name, current hit points. -/
structure Entity where
  x : Int
  y : Int
  char : String
  name : String
  hp : Int
deriving DecidableEq

/-- `Item` dataclass: position, glyph, name, kind (`"weapon"` or `"potion"`), power. -/
structure Item where
  x : Int
  y : Int
  char : String
  name : String
  kind : String
  power : Int
deriving DecidableEq

abbrev Pos := Int × Int

abbrev Grid := Pos → Tile

/-- One argument of an OSC message (the program only ever sends ints and strings). -/
inductive OscArg where
  | i (n : Int)
  | s (str : String)
deriving DecidableEq

/-- A logged OSC datagram: address plus arguments, as handed to `_osc_pack`. -/
abbrev OscMsg := String × List OscArg

/-- The `Game` dataclass: the single mutable root of the program.
`osc_log` replaces the UDP socket (see the module docstring). -/
structure Game where
  width : Nat
  height : Nat
  num_monsters : Nat
  num_items : Nat
  tiles : Grid
  player : Option Entity
  monsters : List Entity
  items : List Item
  messages : List String
  level : Int
  inventory : List Item
  current_weapon : Option Item
  monster_turn_counter : Nat
  nezha_phase : Nat
  osc_log : List OscMsg

/-- Placeholder entity for total list indexing (never reached by the proofs). -/
def dummyEntity : Entity := ⟨0, 0, "?", "?", 0⟩

/-- Placeholder game for `Option.getD` on concrete runs. -/
def dummyGame : Game :=
  ⟨0, 0, 0, 0, fun _ => Tile.wall, none, [], [], [], 0, [], none, 0, 0, []⟩

/- ---------------- OSC HELPERS ---------------- -/

/-- UTF-8 bytes of one character (the standard 1-to-4 byte encoding used by
`str.encode("utf-8")`). -/
def charUtf8 (c : Char) : List Nat :=
  let n := c.toNat
  if n < 128 then [n]
  else if n < 2048 then [192 + n / 64, 128 + n % 64]
  else if n < 65536 then [224 + n / 4096, 128 + n / 64 % 64, 128 + n % 64]
  else [240 + n / 262144, 128 + n / 4096 % 64, 128 + n / 64 % 64, 128 + n % 64]

/-- UTF-8 bytes of a string: `s.encode("utf-8")`. -/
def strUtf8 (s : String) : List Nat := s.data.flatMap charUtf8

/-- `Game._osc_pack_string`: UTF-8 encode, null-terminate, zero-pad to a
multiple of 4 bytes (the `while len(data) % 4 != 0` loop). -/
def osc_pack_string (s : String) : List Nat :=
  let d := strUtf8 s ++ [0]
  d ++ List.replicate ((4 - d.length % 4) % 4) 0

/-- 4-byte big-endian two's-complement encoding: `struct.pack(">i", a)`
(the source never passes an int outside the 32-bit range). -/
def int32be (a : Int) : List Nat :=
  let m := (a % 4294967296).toNat
  [m / 16777216 % 256, m / 65536 % 256, m / 256 % 256, m % 256]

/-- Type-tag character of one argument (`'i'` for ints, `'s'` otherwise). -/
def oscTagChar : OscArg → String
  | .i _ => "i"
  | .s _ => "s"

/-- Encoding of one argument in the body of the datagram. -/
def osc_pack_arg : OscArg → List Nat
  | .i n => int32be n
  | .s str => osc_pack_string str

/-- `Game._osc_pack`: address block, then the tag string `","` + one tag char
per argument (packed like any string), then the argument encodings. -/
def osc_pack (address : String) (args : List OscArg) : List Nat :=
  osc_pack_string address
    ++ osc_pack_string (args.foldl (fun t a => t ++ oscTagChar a) ",")
    ++ args.flatMap osc_pack_arg

/-- `Game._osc_send`: the packet always reaches `sendto` (packing cannot fail
for the argument types used), and any network failure is suppressed; the model
records the message in the log. -/
def osc_send (g : Game) (address : String) (args : List OscArg) : Game :=
  { g with osc_log := g.osc_log ++ [(address, args)] }

/-- `Game._send_osc_state`: emits `/player`, `/level`, `/monsters`, then
`/event` when the event string is nonempty, then `/message` with the last log
message when one exists; does nothing when there is no player. -/
def send_osc_state (g : Game) (event : String) : Game :=
  match g.player with
  | none => g
  | some p =>
    let g1 := osc_send g "/player" [OscArg.i p.x, OscArg.i p.y, OscArg.i p.hp]
    let g2 := osc_send g1 "/level" [OscArg.i g.level]
    let g3 := osc_send g2 "/monsters" [OscArg.i (g.monsters.length : Int)]
    let g4 := if event ≠ "" then osc_send g3 "/event" [OscArg.s event] else g3
    match g.messages.getLast? with
    | some m => osc_send g4 "/message" [OscArg.s m]
    | none => g4

/- ---------------- HELPERS ---------------- -/

/-- `Game.in_bounds`. -/
def in_bounds (g : Game) (x y : Int) : Bool :=
  decide (0 ≤ x ∧ x < (g.width : Int) ∧ 0 ≤ y ∧ y < (g.height : Int))

/-- `Game.get_entity_at`: the player first, then the first monster at the cell
with positive hit points. -/
def get_entity_at (g : Game) (x y : Int) : Option Entity :=
  match g.player with
  | some p =>
    if p.x = x ∧ p.y = y then some p
    else g.monsters.find? (fun m => decide (m.x = x ∧ m.y = y ∧ 0 < m.hp))
  | none => g.monsters.find? (fun m => decide (m.x = x ∧ m.y = y ∧ 0 < m.hp))

/-- `Game.get_item_at`: first item at the cell. -/
def get_item_at (g : Game) (x y : Int) : Option Item :=
  g.items.find? (fun it => decide (it.x = x ∧ it.y = y))

/-- `Game.is_walkable`. -/
def is_walkable (g : Game) (x y : Int) : Bool :=
  in_bounds g x y
    && decide (g.tiles (x, y) = Tile.floor ∨ g.tiles (x, y) = Tile.stairsDown)
    && (get_entity_at g x y).isNone

/-- `Game.get_monster_at`: first monster at the cell with positive hit points. -/
def get_monster_at (g : Game) (x y : Int) : Option Entity :=
  g.monsters.find? (fun m => decide (m.x = x ∧ m.y = y ∧ 0 < m.hp))

/-- Eligibility test of the `find_random_floor` loop body: a `FLOOR` tile with
no entity and no item on it. -/
def eligibleFloor (g : Game) (p : Pos) : Bool :=
  decide (g.tiles p = Tile.floor)
    && (get_entity_at g p.1 p.2).isNone
    && (get_item_at g p.1 p.2).isNone

/-- `Game.find_random_floor`, fuel style: the `while True` loop draws one
uniform in-range cell per iteration and returns the first eligible one; the
model consumes the oracle's list of draws and returns `none` when the list is
exhausted, representing a run of the loop that has not yet terminated. -/
def find_random_floor (g : Game) : List Pos → Option Pos
  | [] => none
  | s :: rest => if eligibleFloor g s then some s else find_random_floor g rest

/- ---------------- LEVEL GENERATION ---------------- -/

/-- Writing one cell of the grid (`self.tiles[y][x] = t`). -/
def setTile (G : Grid) (p : Pos) (t : Tile) : Grid :=
  fun q => if q = p then t else G q

/-- The four cardinal steps of `random.choice([(1,0),(-1,0),(0,1),(0,-1)])`. -/
def dirOf (d : Fin 4) : Int × Int :=
  [((1 : Int), (0 : Int)), (-1, 0), (0, 1), (0, -1)].getD d.val (0, 0)

/-- One walker move: add the chosen delta, then clamp each coordinate with
`max(1, min(width-2, ·))` / `max(1, min(height-2, ·))`. -/
def walkStep (w h : Nat) (p : Pos) (d : Fin 4) : Pos :=
  let m := dirOf d
  (max 1 (min ((w : Int) - 2) (p.1 + m.1)), max 1 (min ((h : Int) - 2) (p.2 + m.2)))

/-- The walker loop of `new_level`: each iteration marks the current cell
`FLOOR` and then moves (one list element per iteration of
`for _ in range(width * height * 4)`). -/
def walkPaint (w h : Nat) : Grid → Pos → List (Fin 4) → Grid
  | G, _, [] => G
  | G, p, d :: ds => walkPaint w h (setTile G p Tile.floor) (walkStep w h p d) ds

/-- The cells the walker marks, in order (one per loop iteration). -/
def walkCells (w h : Nat) : Pos → List (Fin 4) → List Pos
  | _, [] => []
  | p, d :: ds => p :: walkCells w h (walkStep w h p d) ds

/-- Oracle for one run of `new_level`: walker directions, the coordinate draws
of the k-th `find_random_floor` call, the item-kind draw and the weapon-table
draw of the k-th placement. -/
structure GenOracle where
  dirs : Nat → Fin 4
  samples : Nat → List Pos
  kinds : Nat → Fin 3
  wdefs : Nat → Fin 4

/-- The walker's start: `width // 2, height // 2`. -/
def startPos (g : Game) : Pos := ((g.width / 2 : Nat), (g.height / 2 : Nat))

/-- Direction list of the walk: `width * height * 4` draws. -/
def walkDirs (g : Game) (o : GenOracle) : List (Fin 4) :=
  (List.range (g.width * g.height * 4)).map o.dirs

/-- The grid after `new_level`'s walker loop (starting from the all-wall grid). -/
def walkGrid (g : Game) (o : GenOracle) : Grid :=
  walkPaint g.width g.height (fun _ => Tile.wall) (startPos g) (walkDirs g o)

/-- The base-monster placement loop: each iteration consumes one
`find_random_floor` call (sample stream index `k`) and appends a Goblin with
`hp = 3 + max(0, level-1)`. -/
def placeMonsters (o : GenOracle) : Nat → Nat → Game → Option (Game × Nat)
  | 0, k, g => some (g, k)
  | n + 1, k, g =>
    match find_random_floor g (o.samples k) with
    | none => none
    | some p =>
      placeMonsters o n (k + 1)
        { g with monsters :=
            g.monsters ++ [⟨p.1, p.2, "g", "Goblin", 3 + max 0 (g.level - 1)⟩] }

/-- The weapon table of `new_level`. -/
def weapon_defs : List (String × String × Int) :=
  [("/", "Rusty Dagger", 1), ("/", "Short Sword", 2),
   (")", "War Axe", 3), (")", "Crystal Blade", 4)]

/-- The item placement loop: one `find_random_floor` call per item, then a
kind draw from `["weapon", "weapon", "potion"]`; a weapon draws from the table
and gains `max(0, level-1) // 2` power, a potion has power `4 + level`. -/
def placeItems (o : GenOracle) : Nat → Nat → Game → Option (Game × Nat)
  | 0, k, g => some (g, k)
  | n + 1, k, g =>
    match find_random_floor g (o.samples k) with
    | none => none
    | some p =>
      let it : Item :=
        if (o.kinds k).val < 2 then
          let wd := weapon_defs.getD (o.wdefs k).val ("/", "Rusty Dagger", 1)
          ⟨p.1, p.2, wd.1, wd.2.1, "weapon", wd.2.2 + max 0 (g.level - 1) / 2⟩
        else
          ⟨p.1, p.2, "!", "Healing Potion", "potion", 4 + g.level⟩
      placeItems o n (k + 1) { g with items := g.items ++ [it] }

/-- Message of the descent branch at the top of `new_level`. -/
def descendMsg (lvl : Int) : String :=
  "You descend to cavern level " ++ toString lvl ++ "."

/-- Message of the Nezha spawn branch. -/
def nezhaSpawnMsg (phase : Nat) : String :=
  "NEZHA PROTOCOL phase " ++ toString (phase + 1) ++ " detected in this cavern."

/-- The head of `new_level`: on a non-first call, bump the level counter and
append the descent message. -/
def descendStage (g : Game) (first : Bool) : Game :=
  if first then g
  else { g with level := g.level + 1,
                messages := g.messages ++ [descendMsg (g.level + 1)] }

/-- The player-placement step of `new_level` (run before the old monster and
item collections are cleared, so their occupancy still blocks cells): a fresh
player entity on the first level or when no player exists, otherwise only the
position is updated. -/
def placePlayer (g : Game) (first : Bool) (samples : List Pos) : Option Game :=
  (find_random_floor g samples).map fun pp =>
    { g with player :=
        match g.player with
        | none => some ⟨pp.1, pp.2, "@", "Player", MAX_HP⟩
        | some p =>
          if first then some ⟨pp.1, pp.2, "@", "Player", MAX_HP⟩
          else some { p with x := pp.1, y := pp.2 } }

/-- The Nezha-spawn step of `new_level`: from level 2 on, while the phase
counter is below 3, place one boss with `hp = 8 + nezha_phase * 5`. -/
def spawnNezha (g : Game) (o : GenOracle) (k : Nat) : Option (Game × Nat) :=
  if 2 ≤ g.level ∧ g.nezha_phase < 3 then
    (find_random_floor g (o.samples k)).map fun np =>
      let nezha : Entity := ⟨np.1, np.2, "N", "Nezha", 8 + (g.nezha_phase : Int) * 5⟩
      let ga := { g with monsters := g.monsters ++ [nezha],
                         messages := g.messages ++ [nezhaSpawnMsg g.nezha_phase] }
      (osc_send ga "/event" [OscArg.s "nezha_spawn"], k + 1)
  else some (g, k)

/-- The stairs step of `new_level`: convert one eligible floor cell to
`STAIRS_DOWN`. -/
def placeStairs (g : Game) (samples : List Pos) : Option Game :=
  (find_random_floor g samples).map fun sp =>
    { g with tiles := setTile g.tiles sp Tile.stairsDown }

/-- The tail of `new_level`: the message log is reset to the welcome message on
the first level, otherwise the shift message is appended. -/
def finalMessages (g : Game) (first : Bool) : Game :=
  if first then { g with messages := ["Welcome to Tiny Shanzai Rogue."] }
  else { g with messages := g.messages ++ ["Concrete corridors shift below..."] }

/-- The state right after `new_level`'s walker loop: the level bump followed by
the repainted tile grid. -/
def paintedGame (g0 : Game) (first : Bool) (o : GenOracle) : Game :=
  let g1 := descendStage g0 first
  { g1 with tiles := walkGrid g1 o }

/-- `Game.new_level`, as the source's sequence of stages: level bump, walker
paint, player placement, monster placement (on a cleared monster list), Nezha
spawn, item placement (on a cleared item list), stairs, messages, snapshot.
Returns `none` when one of the rejection-sampling searches exhausts its oracle
(the unbounded `while True` loop not having terminated yet). -/
def new_level (g0 : Game) (first : Bool) (o : GenOracle) : Option Game :=
  (placePlayer (paintedGame g0 first o) first (o.samples 0)).bind fun g3 =>
  (placeMonsters o g3.num_monsters 1 { g3 with monsters := [] }).bind fun gk5 =>
  (spawnNezha gk5.1 o gk5.2).bind fun gk6 =>
  (placeItems o gk6.1.num_items gk6.2 { gk6.1 with items := [] }).bind fun gk8 =>
  (placeStairs gk8.1 (o.samples gk8.2)).map fun g9 =>
    send_osc_state (finalMessages g9 first) "new_level"

/-- The freshly constructed `Game` record before `__post_init__` runs
(`level = 1`, empty collections, counter and phase at 0, no player yet). -/
def initGame (w h nm ni : Nat) : Game :=
  ⟨w, h, nm, ni, fun _ => Tile.wall, none, [], [], [], 1, [], none, 0, 0, []⟩

/-- `Game.__post_init__`: `new_level(first=True)` then the `"game_start"`
snapshot. -/
def game_start (w h nm ni : Nat) (o : GenOracle) : Option Game :=
  (new_level (initGame w h nm ni) true o).map (fun g => send_osc_state g "game_start")

/- ---------------- MONSTERS (HALF SPEED) ---------------- -/

/-- Oracle for one monster's turn: the `random.random() < chase_bias` outcome,
the wander draw from the five vectors, and the `randint(1,3)` damage base. -/
structure MonOracle where
  chase : Bool
  wander : Fin 5
  dmgBase : Fin 3

/-- Oracle for one scheduler invocation: one `MonOracle` per monster index. -/
structure TickOracle where
  mons : Nat → MonOracle

/-- The five wander vectors `[(1,0),(-1,0),(0,1),(0,-1),(0,0)]`. -/
def wanderDirs : List (Int × Int) := [(1, 0), (-1, 0), (0, 1), (0, -1), (0, 0)]

/-- `Game.is_walkable_for_monster`. -/
def is_walkable_for_monster (g : Game) (x y : Int) : Bool :=
  in_bounds g x y
    && decide (g.tiles (x, y) = Tile.floor ∨ g.tiles (x, y) = Tile.stairsDown)
    && !(g.monsters.any (fun o => decide (o.x = x ∧ o.y = y ∧ 0 < o.hp)))
    && !(match g.player with
         | some p => decide (p.x = x ∧ p.y = y)
         | none => false)

/-- Message of a monster hit on the player. -/
def monsterHitMsg (name : String) (dmg : Int) : String :=
  "The " ++ name ++ " hits you for " ++ toString dmg ++ " damage!"

/-- The greedy chase step `((px > mx) - (px < mx), (py > my) - (py < my))`
(Python's bool arithmetic on the comparison results). -/
def chaseDelta (p m : Entity) : Int × Int :=
  ((if m.x < p.x then 1 else 0) - (if p.x < m.x then 1 else 0),
   (if m.y < p.y then 1 else 0) - (if p.y < m.y then 1 else 0))

/-- The body of the scheduler's `for m in self.monsters` loop for the monster
at index `i` (the list is mutated in place, so positions updated by earlier
iterations are visible to later ones). -/
def monsterStep (mo : MonOracle) (i : Nat) (g : Game) : Game :=
  match g.player with
  | none => g
  | some p =>
    let m := g.monsters.getD i dummyEntity
    if m.hp ≤ 0 then g
    else
      let d : Int × Int :=
        if mo.chase then chaseDelta p m
        else wanderDirs.getD mo.wander.val (0, 0)
      let nx := m.x + d.1
      let ny := m.y + d.2
      if nx = p.x ∧ ny = p.y then
        let base := (1 + (mo.dmgBase.val : Int)) + max 0 (g.level - 1) / 2
        let dmg := if m.name = "Nezha" then base + (1 + (g.nezha_phase : Int)) else base
        let g1 := { g with player := some { p with hp := p.hp - dmg },
                           messages := g.messages ++ [monsterHitMsg m.name dmg] }
        if p.hp - dmg ≤ 0 then
          send_osc_state
            { g1 with messages := g1.messages ++
                ["You fall between slabs of concrete. Game over."] }
            "player_die"
        else send_osc_state g1 "player_hit"
      else if is_walkable_for_monster g nx ny then
        { g with monsters := g.monsters.set i { m with x := nx, y := ny } }
      else g

/-- The scheduler's loop over all monster indices (`fuel` = indices left). -/
def monstersLoop (o : TickOracle) : Nat → Nat → Game → Game
  | 0, _, g => g
  | n + 1, i, g => monstersLoop o n (i + 1) (monsterStep (o.mons i) i g)

/-- `Game.monsters_take_turns`: no-op without a player; otherwise increment
the turn counter, return immediately on odd values (half speed), else run every
monster and then drop the monsters whose hit points are not positive. -/
def monsters_take_turns (g : Game) (o : TickOracle) : Game :=
  match g.player with
  | none => g
  | some _ =>
    let g1 := { g with monster_turn_counter := g.monster_turn_counter + 1 }
    if g1.monster_turn_counter % 2 = 1 then g1
    else
      let g2 := monstersLoop o g1.monsters.length 0 g1
      { g2 with monsters := g2.monsters.filter (fun m => decide (0 < m.hp)) }

/- ---------------- PLAYER ACTIONS ---------------- -/

/-- `Game.player_attack_damage`: `randint(1,4)` + equipped-weapon power +
`max(0, level-1) // 2`. -/
def player_attack_damage (g : Game) (base : Fin 4) : Int :=
  (1 + (base.val : Int))
    + (match g.current_weapon with | some w => w.power | none => 0)
    + max 0 (g.level - 1) / 2

/-- `Game.auto_equip_weapon`: equip when nothing is equipped or the new
weapon's power strictly exceeds the current one's. -/
def auto_equip_weapon (g : Game) (w : Item) : Game :=
  match g.current_weapon with
  | none => { g with current_weapon := some w,
                     messages := g.messages ++ ["You wield the " ++ w.name ++ "."] }
  | some best =>
    if best.power < w.power then
      { g with current_weapon := some w,
               messages := g.messages ++ ["You wield the " ++ w.name ++ "."] }
    else g

/-- Heal message of the potion branch. -/
def healMsg (healed : Int) : String :=
  "Concrete dust washes from your lungs. (+" ++ toString healed ++ " HP)"

/-- `Game.check_pickup`: remove the item under the player; a weapon goes to the
inventory and may be auto-equipped, a potion heals `min(MAX_HP - hp, power)`
when that is positive. -/
def check_pickup (g : Game) : Game :=
  match g.player with
  | none => g
  | some p =>
    match get_item_at g p.x p.y with
    | none => g
    | some item =>
      let g1 := { g with items := g.items.erase item }
      if item.kind = "weapon" then
        let g2 := { g1 with inventory := g1.inventory ++ [item],
                            messages := g1.messages ++
                              ["You pick up a " ++ item.name ++ "."] }
        send_osc_state (auto_equip_weapon g2 item) "pickup_weapon"
      else if item.kind = "potion" then
        let healed := min (MAX_HP - p.hp) item.power
        let g2 :=
          if 0 < healed then
            { g1 with player := some { p with hp := p.hp + healed },
                      messages := g1.messages ++ [healMsg healed] }
          else
            { g1 with messages := g1.messages ++ ["You drink, but feel no different."] }
        send_osc_state g2 "pickup_potion"
      else g1

/-- Oracle for one `move_player` call: the attack-roll draw, the scheduler
oracle, and a generation oracle for a possible descent. -/
structure MoveOracle where
  atkBase : Fin 4
  tick : TickOracle
  gen : GenOracle

/-- Message of a player hit on a monster. -/
def playerHitMsg (name : String) (dmg : Int) : String :=
  "You hit the " ++ name ++ " for " ++ toString dmg ++ " damage!"

/-- `Game.move_player`.  Returns `none` only when a descent's `new_level`
exhausts its placement oracle. -/
def move_player (g : Game) (dx dy : Int) (o : MoveOracle) : Option Game :=
  match g.player with
  | none => some g
  | some p =>
    let nx := p.x + dx
    let ny := p.y + dy
    if ¬ in_bounds g nx ny then
      some (send_osc_state
        { g with messages := g.messages ++ ["You bump into the edge of the concrete grid."] }
        "bump_edge")
    else
      match g.monsters.findIdx? (fun m => decide (m.x = nx ∧ m.y = ny ∧ 0 < m.hp)) with
      | some ti =>
        let target := g.monsters.getD ti dummyEntity
        let dmg := player_attack_damage g o.atkBase
        let g1 := { g with monsters := g.monsters.set ti { target with hp := target.hp - dmg },
                           messages := g.messages ++ [playerHitMsg target.name dmg] }
        let nezhaDeath := g1.messages ++ ["Nezha discards this concrete body. The pattern sinks deeper."]
        let g2 :=
          if target.hp - dmg ≤ 0 then
            if target.name = "Nezha" then
              osc_send
                { g1 with messages := nezhaDeath, nezha_phase := min (g1.nezha_phase + 1) 3 }
                "/event" [OscArg.s "nezha_phase_end"]
            else { g1 with messages := g1.messages ++ ["The " ++ target.name ++ " dies."] }
          else g1
        some (send_osc_state (monsters_take_turns g2 o.tick) "player_attack")
      | none =>
        match g.tiles (nx, ny) with
        | Tile.stairsDown =>
          new_level
            { g with messages := g.messages ++ ["You step onto the stairwell and descend."] }
            false o.gen
        | Tile.floor =>
          let g1 := { g with player := some { p with x := nx, y := ny } }
          let g2 := check_pickup g1
          some (send_osc_state (monsters_take_turns g2 o.tick) "player_move")
        | Tile.wall =>
          some (send_osc_state
            { g with messages := g.messages ++ ["Your shoulder hits raw concrete."] }
            "bump_wall")

/-- `Game.wait_turn`. -/
def wait_turn (g : Game) (o : TickOracle) : Game :=
  send_osc_state
    (monsters_take_turns
      { g with messages := g.messages ++ ["You wait and feel the structure hum."] } o)
    "wait"

/- ---------------- SERIALIZATION ---------------- -/

/-- The external view produced by `Game.serialize` (the monster entries keep
the full entity, the item entries the full item, matching the emitted dicts). -/
structure Snapshot where
  tiles : List String
  player : Int × Int × String × Int
  monsters : List Entity
  items : List Item
  messages : List String
  game_over : Bool
  level : Int
  weapon : Option (String × Int)
  inventory : List (String × String × Int)

/-- `Game.serialize` (`none` models the attribute error a missing player would
raise; the program always has a player when it serializes). -/
def serialize (g : Game) : Option Snapshot :=
  match g.player with
  | none => none
  | some p =>
    some
      { tiles := (List.range g.height).map (fun y =>
          String.join ((List.range g.width).map (fun x =>
            (g.tiles ((x : Int), (y : Int))).char)))
        player := (p.x, p.y, p.char, p.hp)
        monsters := g.monsters
        items := g.items
        messages := g.messages.reverse.take 10 |>.reverse
        game_over := decide (p.hp ≤ 0)
        level := g.level
        weapon := g.current_weapon.map (fun w => (w.name, w.power))
        inventory := g.inventory.map (fun it => (it.name, it.kind, it.power)) }

/- ---------------- A CONCRETE RUN (used as witness data) ---------------- -/

/-- A concrete generation oracle for a 5×5 board: the walker goes east, then
north, then west (painting `(2,2), (3,2), (3,1), (2,1), (1,1)`), and every
placement search draws the painted cells in a fixed order. -/
def cexGen : GenOracle :=
  ⟨fun i => if i = 0 then 0 else if i = 1 then 3 else 1,
   fun _ => [(2, 2), (3, 2), (3, 1), (2, 1), (1, 1)],
   fun _ => 0, fun _ => 0⟩

/-- A scheduler oracle: every monster wanders in place. -/
def cexTick : TickOracle := ⟨fun _ => ⟨false, 0, 0⟩⟩

/-- `Game(width=5, height=5, num_monsters=1, num_items=0)` under `cexGen`:
player at `(2,2)`, one Goblin with 3 hp at `(3,2)`, stairs at `(3,1)`. -/
def cexStart : Game := (game_start 5 5 1 0 cexGen).getD dummyGame

/-- A move oracle with the maximal attack roll (`randint(1,4) = 4`). -/
def cexMove : MoveOracle := ⟨3, cexTick, cexGen⟩

/-- The state after the killing blow `move_player(1, 0)` from `cexStart`: the
Goblin is left in the collection with -1 hp, because the scheduler invocation
of this action is odd and returns before the dead-monster filter. -/
def cexAfter : Game := (move_player cexStart 1 0 cexMove).getD dummyGame

/-- A move oracle for the descent move (the attack roll is unused). -/
def cexMove7 : MoveOracle := ⟨0, cexTick, cexGen⟩

/-- The state after the descent move `move_player(1, -1)` from `cexStart`
onto the stairs at `(3,1)`. -/
def cexDesc : Game := (move_player cexStart 1 (-1) cexMove7).getD dummyGame

/-- The level `new_level` alone produces from the fresh 5×5 record. -/
def cexL : Game := (new_level (initGame 5 5 1 0) true cexGen).getD dummyGame

/- ---------------- BASIC FRAME LEMMAS ---------------- -/

/-- `_send_osc_state` leaves every field but the OSC log unchanged. -/
theorem send_osc_state_proj (g : Game) (e : String) :
    (send_osc_state g e).width = g.width ∧ (send_osc_state g e).height = g.height ∧
    (send_osc_state g e).num_monsters = g.num_monsters ∧
    (send_osc_state g e).num_items = g.num_items ∧
    (send_osc_state g e).tiles = g.tiles ∧ (send_osc_state g e).player = g.player ∧
    (send_osc_state g e).monsters = g.monsters ∧ (send_osc_state g e).items = g.items ∧
    (send_osc_state g e).messages = g.messages ∧ (send_osc_state g e).level = g.level ∧
    (send_osc_state g e).inventory = g.inventory ∧
    (send_osc_state g e).current_weapon = g.current_weapon ∧
    (send_osc_state g e).monster_turn_counter = g.monster_turn_counter ∧
    (send_osc_state g e).nezha_phase = g.nezha_phase := by
  unfold send_osc_state osc_send
  cases hp : g.player <;> cases hm : g.messages.getLast? <;> by_cases he : e ≠ "" <;>
    simp [he, hp, hm]

theorem send_osc_state_player (g : Game) (e : String) :
    (send_osc_state g e).player = g.player := (send_osc_state_proj g e).2.2.2.2.2.1

theorem send_osc_state_tiles (g : Game) (e : String) :
    (send_osc_state g e).tiles = g.tiles := (send_osc_state_proj g e).2.2.2.2.1

theorem send_osc_state_monsters (g : Game) (e : String) :
    (send_osc_state g e).monsters = g.monsters := (send_osc_state_proj g e).2.2.2.2.2.2.1

/- ---------------- WALK / REACHABILITY ---------------- -/

/-- 4-adjacency of two cells. -/
def adjacent (a b : Pos) : Prop := (a.1 - b.1).natAbs + (a.2 - b.2).natAbs = 1

/-- A tile a creature may stand on (`FLOOR` or `STAIRS_DOWN`). -/
def walkableTile (G : Grid) (p : Pos) : Prop :=
  G p = Tile.floor ∨ G p = Tile.stairsDown

/-- Reachability through single-cell steps over 4-adjacent walkable tiles. -/
def Reach (G : Grid) : Pos → Pos → Prop :=
  Relation.ReflTransGen (fun a b => adjacent a b ∧ walkableTile G a ∧ walkableTile G b)

theorem adjacent_symm {a b : Pos} (h : adjacent a b) : adjacent b a := by
  unfold adjacent at h ⊢; omega

theorem Reach.symm {G : Grid} {a b : Pos} (h : Reach G a b) : Reach G b a :=
  Relation.ReflTransGen.symmetric
    (fun _ _ hr => ⟨adjacent_symm hr.1, hr.2.2, hr.2.1⟩) h

/-- The strictly-inside-the-border region that the walker is clamped into and
`find_random_floor` samples from. -/
def interiorWH (w h : Nat) (p : Pos) : Prop :=
  1 ≤ p.1 ∧ p.1 ≤ (w : Int) - 2 ∧ 1 ≤ p.2 ∧ p.2 ≤ (h : Int) - 2

theorem walkStep_interior (w h : Nat) (hw : 3 ≤ w) (hh : 3 ≤ h) (p : Pos) (d : Fin 4) :
    interiorWH w h (walkStep w h p d) := by
  have hw' : (3 : Int) ≤ (w : Int) := by exact_mod_cast hw
  have hh' : (3 : Int) ≤ (h : Int) := by exact_mod_cast hh
  unfold walkStep interiorWH
  refine ⟨?_, ?_, ?_, ?_⟩ <;> dsimp only <;> omega

theorem walkStep_eq_or_adjacent (w h : Nat) (hw : 3 ≤ w) (hh : 3 ≤ h) (p : Pos) (d : Fin 4)
    (hp : interiorWH w h p) : walkStep w h p d = p ∨ adjacent p (walkStep w h p d) := by
  have hw' : (3 : Int) ≤ (w : Int) := by exact_mod_cast hw
  have hh' : (3 : Int) ≤ (h : Int) := by exact_mod_cast hh
  obtain ⟨h1, h2, h3, h4⟩ := hp
  fin_cases d <;>
    simp only [walkStep, dirOf, List.getD, List.get?, Option.getD, Fin.isValue,
      Prod.mk.injEq, adjacent, Prod.ext_iff] <;>
    omega

theorem walkCells_interior (w h : Nat) (hw : 3 ≤ w) (hh : 3 ≤ h) :
    ∀ (ds : List (Fin 4)) (p : Pos), interiorWH w h p →
      ∀ q ∈ walkCells w h p ds, interiorWH w h q := by
  intro ds
  induction ds with
  | nil => intro p _ q hq; simp [walkCells] at hq
  | cons d ds ih =>
    intro p hp q hq
    rw [walkCells] at hq
    rcases List.mem_cons.mp hq with rfl | hq'
    · exact hp
    · exact ih (walkStep w h p d) (walkStep_interior w h hw hh p d) q hq'

/-- The grid painted by the walker holds `FLOOR` exactly on the visited cells
and is elsewhere untouched. -/
theorem walkPaint_eq (w h : Nat) :
    ∀ (ds : List (Fin 4)) (G : Grid) (p q : Pos),
      walkPaint w h G p ds q =
        if q ∈ walkCells w h p ds then Tile.floor else G q := by
  intro ds
  induction ds with
  | nil => intro G p q; simp [walkPaint, walkCells]
  | cons d ds ih =>
    intro G p q
    rw [walkPaint, walkCells, ih]
    by_cases hq : q ∈ walkCells w h (walkStep w h p d) ds
    · simp [hq, List.mem_cons]
    · by_cases hqp : q = p
      · subst hqp; simp [hq, setTile]
      · simp [hq, hqp, setTile, List.mem_cons]

/-- Every cell the walker visits is reachable from the walker's position, on
any grid that is walkable on all visited cells. -/
theorem reach_walkCells (w h : Nat) (hw : 3 ≤ w) (hh : 3 ≤ h) (G : Grid) :
    ∀ (ds : List (Fin 4)) (p : Pos), interiorWH w h p →
      (∀ c ∈ walkCells w h p ds, walkableTile G c) →
      ∀ q ∈ walkCells w h p ds, Reach G p q := by
  intro ds
  induction ds with
  | nil => intro p _ _ q hq; simp [walkCells] at hq
  | cons d ds ih =>
    intro p hp hall q hq
    rw [walkCells] at hq hall
    rcases List.mem_cons.mp hq with rfl | hq'
    · exact Relation.ReflTransGen.refl
    · have hstep : Reach G (walkStep w h p d) q :=
        ih (walkStep w h p d) (walkStep_interior w h hw hh p d)
          (fun c hc => hall c (List.mem_cons_of_mem _ hc)) q hq'
      rcases walkStep_eq_or_adjacent w h hw hh p d hp with heq | hadj
      · rwa [heq] at hstep
      · have hwp : walkableTile G p := hall p (List.mem_cons_self _ _)
        have hws : walkableTile G (walkStep w h p d) := by
          cases ds with
          | nil => rw [walkCells] at hq'; simp at hq'
          | cons e es =>
            exact hall (walkStep w h p d)
              (by rw [walkCells]; exact List.mem_cons_of_mem _ (List.mem_cons_self _ _))
        exact Relation.ReflTransGen.head ⟨hadj, hwp, hws⟩ hstep

/- ---------------- GENERATION LEMMAS ---------------- -/

theorem find_random_floor_spec (g : Game) :
    ∀ (l : List Pos) (p : Pos), find_random_floor g l = some p → eligibleFloor g p = true := by
  intro l
  induction l with
  | nil => intro p h; simp [find_random_floor] at h
  | cons s rest ih =>
    intro p h
    rw [find_random_floor] at h
    by_cases hs : eligibleFloor g s
    · rw [if_pos hs] at h; cases h; exact hs
    · rw [if_neg hs] at h; exact ih p h

theorem eligibleFloor_spec (g : Game) (p : Pos) (h : eligibleFloor g p = true) :
    g.tiles p = Tile.floor ∧ get_entity_at g p.1 p.2 = none ∧ get_item_at g p.1 p.2 = none := by
  simp only [eligibleFloor, Bool.and_eq_true, decide_eq_true_eq,
    Option.isNone_iff_eq_none] at h
  exact ⟨h.1.1, h.1.2, h.2⟩

theorem get_entity_at_player (g : Game) (pl : Entity) (x y : Int)
    (hp : g.player = some pl) (h : get_entity_at g x y = none) :
    ¬(pl.x = x ∧ pl.y = y) := by
  unfold get_entity_at at h
  rw [hp] at h
  dsimp only at h
  intro hc
  rw [if_pos hc] at h
  exact Option.noConfusion h

theorem descendStage_proj (g : Game) (first : Bool) :
    (descendStage g first).width = g.width ∧ (descendStage g first).height = g.height ∧
    (descendStage g first).num_monsters = g.num_monsters ∧
    (descendStage g first).num_items = g.num_items ∧
    (descendStage g first).tiles = g.tiles ∧ (descendStage g first).player = g.player ∧
    (descendStage g first).monsters = g.monsters ∧ (descendStage g first).items = g.items ∧
    (descendStage g first).level = (if first then g.level else g.level + 1) ∧
    (descendStage g first).inventory = g.inventory ∧
    (descendStage g first).current_weapon = g.current_weapon ∧
    (descendStage g first).monster_turn_counter = g.monster_turn_counter ∧
    (descendStage g first).nezha_phase = g.nezha_phase := by
  cases first <;> simp [descendStage]

theorem walkGrid_descend (g : Game) (first : Bool) (o : GenOracle) :
    walkGrid (descendStage g first) o = walkGrid g o := by
  cases first <;> rfl

theorem paintedGame_proj (g : Game) (first : Bool) (o : GenOracle) :
    (paintedGame g first o).width = g.width ∧ (paintedGame g first o).height = g.height ∧
    (paintedGame g first o).num_monsters = g.num_monsters ∧
    (paintedGame g first o).num_items = g.num_items ∧
    (paintedGame g first o).tiles = walkGrid g o ∧
    (paintedGame g first o).player = g.player ∧
    (paintedGame g first o).monsters = g.monsters ∧
    (paintedGame g first o).items = g.items ∧
    (paintedGame g first o).level = (if first then g.level else g.level + 1) ∧
    (paintedGame g first o).inventory = g.inventory ∧
    (paintedGame g first o).current_weapon = g.current_weapon ∧
    (paintedGame g first o).monster_turn_counter = g.monster_turn_counter ∧
    (paintedGame g first o).nezha_phase = g.nezha_phase := by
  cases first <;>
    · simp [paintedGame, descendStage, walkGrid_descend]
      try exact walkGrid_descend g false o ▸ rfl

theorem placePlayer_spec (g : Game) (first : Bool) (samples : List Pos) (g3 : Game)
    (h : placePlayer g first samples = some g3) :
    ∃ pp : Pos, eligibleFloor g pp = true ∧
      g3 = { g with player :=
        match g.player with
        | none => some ⟨pp.1, pp.2, "@", "Player", MAX_HP⟩
        | some p =>
          if first then some ⟨pp.1, pp.2, "@", "Player", MAX_HP⟩
          else some { p with x := pp.1, y := pp.2 } } := by
  unfold placePlayer at h
  cases hf : find_random_floor g samples with
  | none => rw [hf] at h; exact Option.noConfusion h
  | some pp =>
    rw [hf] at h
    simp only [Option.map_some'] at h
    exact ⟨pp, find_random_floor_spec g samples pp hf, (Option.some.inj h).symm⟩

/-- The weapon table's base powers are all at least 1. -/
theorem weapon_defs_power (j : Fin 4) :
    1 ≤ (weapon_defs.getD j.val ("/", "Rusty Dagger", 1)).2.2 := by
  fin_cases j <;> decide

theorem placeMonsters_shape (o : GenOracle) :
    ∀ (n k : Nat) (g g' : Game) (k' : Nat), placeMonsters o n k g = some (g', k') →
      g'.width = g.width ∧ g'.height = g.height ∧ g'.num_monsters = g.num_monsters ∧
      g'.num_items = g.num_items ∧ g'.tiles = g.tiles ∧ g'.player = g.player ∧
      g'.items = g.items ∧ g'.messages = g.messages ∧ g'.level = g.level ∧
      g'.inventory = g.inventory ∧ g'.current_weapon = g.current_weapon ∧
      g'.monster_turn_counter = g.monster_turn_counter ∧ g'.nezha_phase = g.nezha_phase ∧
      g'.osc_log = g.osc_log ∧
      (∀ m ∈ g'.monsters, m ∈ g.monsters ∨
        (m.name = "Goblin" ∧ m.char = "g" ∧ m.hp = 3 + max 0 (g.level - 1))) := by
  intro n
  induction n with
  | zero =>
    intro k g g' k' h
    rw [placeMonsters] at h
    cases h
    exact ⟨rfl, rfl, rfl, rfl, rfl, rfl, rfl, rfl, rfl, rfl, rfl, rfl, rfl, rfl,
      fun m hm => Or.inl hm⟩
  | succ n ih =>
    intro k g g' k' h
    rw [placeMonsters] at h
    cases hf : find_random_floor g (o.samples k) with
    | none => rw [hf] at h; exact Option.noConfusion h
    | some p =>
      rw [hf] at h
      obtain ⟨e1, e2, e3, e4, e5, e6, e7, e8, e9, e10, e11, e12, e13, e14, e15⟩ :=
        ih (k + 1) _ g' k' h
      refine ⟨e1, e2, e3, e4, e5, e6, e7, e8, e9, e10, e11, e12, e13, e14, ?_⟩
      intro m hm
      rcases e15 m hm with hmem | hfresh
      · rcases List.mem_append.mp hmem with h1 | h2
        · exact Or.inl h1
        · rw [List.mem_singleton] at h2
          subst h2
          exact Or.inr ⟨rfl, rfl, rfl⟩
      · exact Or.inr hfresh

theorem placeItems_shape (o : GenOracle) :
    ∀ (n k : Nat) (g g' : Game) (k' : Nat), placeItems o n k g = some (g', k') →
      g'.width = g.width ∧ g'.height = g.height ∧ g'.num_monsters = g.num_monsters ∧
      g'.num_items = g.num_items ∧ g'.tiles = g.tiles ∧ g'.player = g.player ∧
      g'.monsters = g.monsters ∧ g'.messages = g.messages ∧ g'.level = g.level ∧
      g'.inventory = g.inventory ∧ g'.current_weapon = g.current_weapon ∧
      g'.monster_turn_counter = g.monster_turn_counter ∧ g'.nezha_phase = g.nezha_phase ∧
      g'.osc_log = g.osc_log ∧
      (∀ it ∈ g'.items, it ∈ g.items ∨
        (it.kind = "weapon" ∧ 1 ≤ it.power) ∨
        (it.kind = "potion" ∧ it.power = 4 + g.level)) := by
  intro n
  induction n with
  | zero =>
    intro k g g' k' h
    rw [placeItems] at h
    cases h
    exact ⟨rfl, rfl, rfl, rfl, rfl, rfl, rfl, rfl, rfl, rfl, rfl, rfl, rfl, rfl,
      fun it hit => Or.inl hit⟩
  | succ n ih =>
    intro k g g' k' h
    rw [placeItems] at h
    cases hf : find_random_floor g (o.samples k) with
    | none => rw [hf] at h; exact Option.noConfusion h
    | some p =>
      rw [hf] at h
      obtain ⟨e1, e2, e3, e4, e5, e6, e7, e8, e9, e10, e11, e12, e13, e14, e15⟩ :=
        ih (k + 1) _ g' k' h
      refine ⟨e1, e2, e3, e4, e5, e6, e7, e8, e9, e10, e11, e12, e13, e14, ?_⟩
      intro it hit
      rcases e15 it hit with hmem | hf' | hf'
      · rcases List.mem_append.mp hmem with h1 | h2
        · exact Or.inl h1
        · rw [List.mem_singleton] at h2
          subst h2
          by_cases hk : (o.kinds k).val < 2
          · refine Or.inr (Or.inl ?_)
            simp only [if_pos hk]
            have := weapon_defs_power (o.wdefs k)
            have h2 : (0 : Int) ≤ max 0 (g.level - 1) / 2 := by omega
            constructor
            · trivial
            · dsimp only
              omega
          · refine Or.inr (Or.inr ?_)
            simp only [if_neg hk]
            exact ⟨by trivial, by trivial⟩
      · exact Or.inr (Or.inl hf')
      · exact Or.inr (Or.inr hf')

theorem spawnNezha_spec (g : Game) (o : GenOracle) (k : Nat) (g6 : Game) (k6 : Nat)
    (h : spawnNezha g o k = some (g6, k6)) :
    g6.width = g.width ∧ g6.height = g.height ∧ g6.num_monsters = g.num_monsters ∧
    g6.num_items = g.num_items ∧ g6.tiles = g.tiles ∧ g6.player = g.player ∧
    g6.items = g.items ∧ g6.level = g.level ∧ g6.inventory = g.inventory ∧
    g6.current_weapon = g.current_weapon ∧
    g6.monster_turn_counter = g.monster_turn_counter ∧ g6.nezha_phase = g.nezha_phase ∧
    ((2 ≤ g.level ∧ g.nezha_phase < 3) →
      ∃ np : Pos, eligibleFloor g np = true ∧
        g6.monsters = g.monsters ++ [⟨np.1, np.2, "N", "Nezha", 8 + (g.nezha_phase : Int) * 5⟩]) ∧
    (¬(2 ≤ g.level ∧ g.nezha_phase < 3) → g6.monsters = g.monsters) := by
  unfold spawnNezha at h
  by_cases hc : 2 ≤ g.level ∧ g.nezha_phase < 3
  · rw [if_pos hc] at h
    cases hf : find_random_floor g (o.samples k) with
    | none => rw [hf] at h; exact Option.noConfusion h
    | some np =>
      rw [hf] at h
      simp only [Option.map_some'] at h
      cases h
      exact ⟨rfl, rfl, rfl, rfl, rfl, rfl, rfl, rfl, rfl, rfl, rfl, rfl,
        fun _ => ⟨np, find_random_floor_spec g _ np hf, rfl⟩,
        fun hnc => absurd hc hnc⟩
  · rw [if_neg hc] at h
    cases h
    exact ⟨rfl, rfl, rfl, rfl, rfl, rfl, rfl, rfl, rfl, rfl, rfl, rfl,
      fun hcc => absurd hcc hc, fun _ => rfl⟩

theorem placeStairs_spec (g : Game) (samples : List Pos) (g9 : Game)
    (h : placeStairs g samples = some g9) :
    ∃ sp : Pos, eligibleFloor g sp = true ∧
      g9 = { g with tiles := setTile g.tiles sp Tile.stairsDown } := by
  unfold placeStairs at h
  cases hf : find_random_floor g samples with
  | none => rw [hf] at h; exact Option.noConfusion h
  | some sp =>
    rw [hf] at h
    simp only [Option.map_some'] at h
    exact ⟨sp, find_random_floor_spec g samples sp hf, (Option.some.inj h).symm⟩

theorem finalMessages_proj (g : Game) (first : Bool) :
    (finalMessages g first).width = g.width ∧ (finalMessages g first).height = g.height ∧
    (finalMessages g first).num_monsters = g.num_monsters ∧
    (finalMessages g first).num_items = g.num_items ∧
    (finalMessages g first).tiles = g.tiles ∧ (finalMessages g first).player = g.player ∧
    (finalMessages g first).monsters = g.monsters ∧ (finalMessages g first).items = g.items ∧
    (finalMessages g first).level = g.level ∧ (finalMessages g first).inventory = g.inventory ∧
    (finalMessages g first).current_weapon = g.current_weapon ∧
    (finalMessages g first).monster_turn_counter = g.monster_turn_counter ∧
    (finalMessages g first).nezha_phase = g.nezha_phase := by
  cases first <;> simp [finalMessages]

/-- Everything `new_level` guarantees about its output, relative to the input
state: preserved fields, the new level number, the freshly painted grid with
one stairs cell, the relocated (or fresh) player on a floor cell distinct from
the stairs, and the freshly created monster and item collections. -/
theorem new_level_shape (g0 : Game) (first : Bool) (o : GenOracle) (g' : Game)
    (h : new_level g0 first o = some g') :
    g'.width = g0.width ∧ g'.height = g0.height ∧
    g'.num_monsters = g0.num_monsters ∧ g'.num_items = g0.num_items ∧
    g'.level = (if first then g0.level else g0.level + 1) ∧
    g'.nezha_phase = g0.nezha_phase ∧
    g'.monster_turn_counter = g0.monster_turn_counter ∧
    g'.inventory = g0.inventory ∧ g'.current_weapon = g0.current_weapon ∧
    ∃ pp sp : Pos,
      walkGrid g0 o pp = Tile.floor ∧ walkGrid g0 o sp = Tile.floor ∧ pp ≠ sp ∧
      g'.tiles = setTile (walkGrid g0 o) sp Tile.stairsDown ∧
      (∃ pl : Entity, g'.player = some pl ∧ pl.x = pp.1 ∧ pl.y = pp.2 ∧
        ((first = true ∨ g0.player = none) → pl = ⟨pp.1, pp.2, "@", "Player", MAX_HP⟩) ∧
        (∀ q : Entity, first = false → g0.player = some q →
          pl = { q with x := pp.1, y := pp.2 })) ∧
      (∀ m ∈ g'.monsters,
        (m.name = "Goblin" ∧
          m.hp = 3 + max 0 ((if first then g0.level else g0.level + 1) - 1)) ∨
        (m.name = "Nezha" ∧ m.hp = 8 + (g0.nezha_phase : Int) * 5)) ∧
      ((∃ m ∈ g'.monsters, m.name = "Nezha") ↔
        (2 ≤ (if first then g0.level else g0.level + 1) ∧ g0.nezha_phase < 3)) ∧
      (∀ it ∈ g'.items,
        (it.kind = "weapon" ∧ 1 ≤ it.power) ∨
        (it.kind = "potion" ∧
          it.power = 4 + (if first then g0.level else g0.level + 1))) := by
  unfold new_level at h
  obtain ⟨g3, h3, h⟩ := Option.bind_eq_some.mp h
  obtain ⟨gk5, h5, h⟩ := Option.bind_eq_some.mp h
  obtain ⟨gk6, h6, h⟩ := Option.bind_eq_some.mp h
  obtain ⟨gk8, h8, h⟩ := Option.bind_eq_some.mp h
  obtain ⟨g9, h9, hg'⟩ := Option.map_eq_some'.mp h
  subst hg'
  obtain ⟨P1, P2, P3, P4, P5, P6, P7, P8, P9, P10, P11, P12, P13⟩ :=
    paintedGame_proj g0 first o
  obtain ⟨pp, hppE, hg3⟩ := placePlayer_spec _ _ _ _ h3
  subst hg3
  obtain ⟨M1, M2, M3, M4, M5, M6, M7, M8, M9, M10, M11, M12, M13, M14, M15⟩ :=
    placeMonsters_shape o _ 1 _ gk5.1 gk5.2 h5
  obtain ⟨N1, N2, N3, N4, N5, N6, N7, N8, N9, N10, N11, N12, N13, N14⟩ :=
    spawnNezha_spec gk5.1 o gk5.2 gk6.1 gk6.2 h6
  obtain ⟨I1, I2, I3, I4, I5, I6, I7, I8, I9, I10, I11, I12, I13, I14, I15⟩ :=
    placeItems_shape o _ gk6.2 _ gk8.1 gk8.2 h8
  obtain ⟨sp, hspE, hg9⟩ := placeStairs_spec _ _ _ h9
  obtain ⟨S1, S2, S3, S4, S5, S6, S7, S8, S9, S10, S11, S12, S13, S14⟩ :=
    send_osc_state_proj (finalMessages g9 first) "new_level"
  obtain ⟨F1, F2, F3, F4, F5, F6, F7, F8, F9, F10, F11, F12, F13⟩ :=
    finalMessages_proj g9 first
  -- the player entity produced by the placement stage
  have hpl3 : ∃ pl : Entity,
      (match (paintedGame g0 first o).player with
        | none => some (⟨pp.1, pp.2, "@", "Player", MAX_HP⟩ : Entity)
        | some p =>
          if first then some (⟨pp.1, pp.2, "@", "Player", MAX_HP⟩ : Entity)
          else some { p with x := pp.1, y := pp.2 }) = some pl ∧
      pl.x = pp.1 ∧ pl.y = pp.2 ∧
      ((first = true ∨ g0.player = none) → pl = ⟨pp.1, pp.2, "@", "Player", MAX_HP⟩) ∧
      (∀ q : Entity, first = false → g0.player = some q →
        pl = { q with x := pp.1, y := pp.2 }) := by
    rw [P6]
    cases hq : g0.player with
    | none =>
      exact ⟨⟨pp.1, pp.2, "@", "Player", MAX_HP⟩, rfl, rfl, rfl, fun _ => rfl,
        fun q _ hq' => Option.noConfusion hq'⟩
    | some q =>
      cases first with
      | true =>
        exact ⟨⟨pp.1, pp.2, "@", "Player", MAX_HP⟩, rfl, rfl, rfl, fun _ => rfl,
          fun q' hf _ => Bool.noConfusion hf⟩
      | false =>
        refine ⟨{ q with x := pp.1, y := pp.2 }, rfl, rfl, rfl, ?_, ?_⟩
        · rintro (hf | hn)
          · exact Bool.noConfusion hf
          · exact Option.noConfusion hn
        · intro q' _ hq'
          cases Option.some.inj hq'
          rfl
  obtain ⟨pl, hplv, hplx, hply, hplF, hplO⟩ := hpl3
  -- chains of preserved fields
  have hT8 : gk8.1.tiles = walkGrid g0 o := I5.trans (N5.trans (M5.trans P5))
  have hP8 : gk8.1.player = some pl := I6.trans (N6.trans (M6.trans hplv))
  have hL5 : gk5.1.level = (if first then g0.level else g0.level + 1) := M9.trans P9
  have hF5 : gk5.1.nezha_phase = g0.nezha_phase := M13.trans P13
  have hL6 : gk6.1.level = (if first then g0.level else g0.level + 1) := N8.trans hL5
  -- the stairs cell
  have hsp1 : gk8.1.tiles sp = Tile.floor := (eligibleFloor_spec _ _ hspE).1
  have hsp2 : get_entity_at gk8.1 sp.1 sp.2 = none := (eligibleFloor_spec _ _ hspE).2.1
  have hWsp : walkGrid g0 o sp = Tile.floor := by rw [← hT8]; exact hsp1
  have hWpp : walkGrid g0 o pp = Tile.floor := by
    have := (eligibleFloor_spec _ _ hppE).1
    rw [P5] at this
    exact this
  have hppsp : pp ≠ sp := by
    intro he
    have hne := get_entity_at_player gk8.1 pl sp.1 sp.2 hP8 hsp2
    exact hne ⟨by rw [← he, hplx], by rw [← he, hply]⟩
  refine ⟨S1.trans (F1.trans (by rw [hg9]; exact I1.trans (N1.trans (M1.trans P1)))),
    S2.trans (F2.trans (by rw [hg9]; exact I2.trans (N2.trans (M2.trans P2)))),
    S3.trans (F3.trans (by rw [hg9]; exact I3.trans (N3.trans (M3.trans P3)))),
    S4.trans (F4.trans (by rw [hg9]; exact I4.trans (N4.trans (M4.trans P4)))),
    S10.trans (F9.trans (by rw [hg9]; exact I9.trans (N8.trans (M9.trans P9)))),
    S14.trans (F13.trans (by rw [hg9]; exact I13.trans (N12.trans (M13.trans P13)))),
    S13.trans (F12.trans (by rw [hg9]; exact I12.trans (N11.trans (M12.trans P12)))),
    S11.trans (F10.trans (by rw [hg9]; exact I10.trans (N9.trans (M10.trans P10)))),
    S12.trans (F11.trans (by rw [hg9]; exact I11.trans (N10.trans (M11.trans P11)))),
    pp, sp, hWpp, hWsp, hppsp, ?_, ?_, ?_, ?_, ?_⟩
  · -- tiles
    rw [S5, F5, hg9]
    show setTile gk8.1.tiles sp Tile.stairsDown = setTile (walkGrid g0 o) sp Tile.stairsDown
    rw [hT8]
  · -- player
    exact ⟨pl, S6.trans (F6.trans (by rw [hg9]; exact hP8)), hplx, hply, hplF, hplO⟩
  · -- monsters characterization
    have hmons : (send_osc_state (finalMessages g9 first) "new_level").monsters =
        gk6.1.monsters :=
      S7.trans (F7.trans (by rw [hg9]; exact I7))
    rw [hmons]
    intro m hm
    by_cases hc : 2 ≤ gk5.1.level ∧ gk5.1.nezha_phase < 3
    · obtain ⟨np, _, hm6⟩ := N13 hc
      rw [hm6] at hm
      rcases List.mem_append.mp hm with h1 | h2
      · rcases M15 m h1 with hnil | hfresh
        · exact absurd hnil (List.not_mem_nil m)
        · refine Or.inl ⟨hfresh.1, ?_⟩
          have hhp : m.hp = 3 + max 0 ((paintedGame g0 first o).level - 1) := hfresh.2.2
          rw [P9] at hhp
          exact hhp
      · rw [List.mem_singleton] at h2
        subst h2
        refine Or.inr ⟨rfl, ?_⟩
        show 8 + (gk5.1.nezha_phase : Int) * 5 = 8 + (g0.nezha_phase : Int) * 5
        rw [hF5]
    · rw [N14 hc] at hm
      rcases M15 m hm with hnil | hfresh
      · exact absurd hnil (List.not_mem_nil m)
      · refine Or.inl ⟨hfresh.1, ?_⟩
        have hhp : m.hp = 3 + max 0 ((paintedGame g0 first o).level - 1) := hfresh.2.2
        rw [P9] at hhp
        exact hhp
  · -- Nezha spawn iff
    have hmons : (send_osc_state (finalMessages g9 first) "new_level").monsters =
        gk6.1.monsters :=
      S7.trans (F7.trans (by rw [hg9]; exact I7))
    rw [hmons]
    constructor
    · rintro ⟨m, hm, hname⟩
      by_cases hc : 2 ≤ gk5.1.level ∧ gk5.1.nezha_phase < 3
      · rw [← hL5, ← hF5]; exact hc
      · rw [N14 hc] at hm
        rcases M15 m hm with hnil | hfresh
        · exact absurd hnil (List.not_mem_nil m)
        · rw [hname] at hfresh
          exact absurd hfresh.1 (by decide)
    · intro hc
      have hc' : 2 ≤ gk5.1.level ∧ gk5.1.nezha_phase < 3 := by
        rw [hL5, hF5]; exact hc
      obtain ⟨np, _, hm6⟩ := N13 hc'
      refine ⟨⟨np.1, np.2, "N", "Nezha", 8 + (gk5.1.nezha_phase : Int) * 5⟩, ?_, rfl⟩
      rw [hm6]
      exact List.mem_append_right _ (List.mem_singleton_self _)
  · -- items characterization
    have hits : (send_osc_state (finalMessages g9 first) "new_level").items =
        gk8.1.items :=
      S8.trans (F8.trans (by rw [hg9]))
    rw [hits]
    intro it hit
    rcases I15 it hit with hnil | hw | hp
    · exact absurd hnil (List.not_mem_nil it)
    · exact Or.inl hw
    · refine Or.inr ⟨hp.1, ?_⟩
      have hpw : it.power = 4 + gk6.1.level := hp.2
      rw [hL6] at hpw
      exact hpw

theorem walkGrid_floor_iff (g : Game) (o : GenOracle) (q : Pos) :
    walkGrid g o q = Tile.floor ↔
      q ∈ walkCells g.width g.height (startPos g) (walkDirs g o) := by
  unfold walkGrid
  rw [walkPaint_eq]
  by_cases hq : q ∈ walkCells g.width g.height (startPos g) (walkDirs g o) <;>
    simp [hq]

theorem walkGrid_ne_stairs (g : Game) (o : GenOracle) (q : Pos) :
    walkGrid g o q ≠ Tile.stairsDown := by
  unfold walkGrid
  rw [walkPaint_eq]
  by_cases hq : q ∈ walkCells g.width g.height (startPos g) (walkDirs g o) <;>
    simp [hq]

theorem startPos_interior (g : Game) (hw : 3 ≤ g.width) (hh : 3 ≤ g.height) :
    interiorWH g.width g.height (startPos g) := by
  unfold startPos interiorWH
  refine ⟨?_, ?_, ?_, ?_⟩ <;> dsimp only <;> omega

/-- C3 — in every level the generator produces (whatever the outcomes of the
walker's and the placements' random draws were), the stairs cell is reachable
from the player's spawn cell through 4-adjacent Floor-or-Stairs tiles. -/
theorem C3_stairs_reachable (g0 : Game) (first : Bool) (o : GenOracle) (g' : Game)
    (hw : 3 ≤ g0.width) (hh : 3 ≤ g0.height)
    (h : new_level g0 first o = some g') :
    ∀ pl : Entity, g'.player = some pl →
      ∀ s : Pos, g'.tiles s = Tile.stairsDown →
        Reach g'.tiles (pl.x, pl.y) s := by
  obtain ⟨_, _, _, _, _, _, _, _, _, pp, sp, hWpp, hWsp, hppsp, htiles, hplayer, _⟩ :=
    new_level_shape g0 first o g' h
  obtain ⟨pl', hpl', hplx, hply, _, _⟩ := hplayer
  intro pl hpl s hs
  have hple : pl = pl' := Option.some.inj (hpl ▸ hpl')
  have hssp : s = sp := by
    rw [htiles] at hs
    unfold setTile at hs
    by_cases hq : s = sp
    · exact hq
    · rw [if_neg hq] at hs
      exact absurd hs (walkGrid_ne_stairs g0 o s)
  have hcpp : pp ∈ walkCells g0.width g0.height (startPos g0) (walkDirs g0 o) :=
    (walkGrid_floor_iff g0 o pp).mp hWpp
  have hcsp : sp ∈ walkCells g0.width g0.height (startPos g0) (walkDirs g0 o) :=
    (walkGrid_floor_iff g0 o sp).mp hWsp
  have hwalk : ∀ c ∈ walkCells g0.width g0.height (startPos g0) (walkDirs g0 o),
      walkableTile g'.tiles c := by
    intro c hc
    have hfloor : walkGrid g0 o c = Tile.floor := (walkGrid_floor_iff g0 o c).mpr hc
    rw [htiles]
    unfold walkableTile setTile
    by_cases hcs : c = sp
    · rw [if_pos hcs]
      right; rfl
    · rw [if_neg hcs]
      left; exact hfloor
  have hreach_pp : Reach g'.tiles (startPos g0) pp :=
    reach_walkCells g0.width g0.height hw hh g'.tiles (walkDirs g0 o) (startPos g0)
      (startPos_interior g0 hw hh) hwalk pp hcpp
  have hreach_sp : Reach g'.tiles (startPos g0) sp :=
    reach_walkCells g0.width g0.height hw hh g'.tiles (walkDirs g0 o) (startPos g0)
      (startPos_interior g0 hw hh) hwalk sp hcsp
  have hpos : (pl.x, pl.y) = pp := by
    rw [hple]
    exact Prod.ext hplx hply
  rw [hpos, hssp]
  exact Relation.ReflTransGen.trans hreach_pp.symm hreach_sp

/- ---------------- REACHABLE STATES AND THE GLOBAL INVARIANT ---------------- -/

/-- The direction vectors of the server's `moves` table
(`{"up": (0,-1), "down": (0,1), "left": (-1,0), "right": (1,0)}`); a command
outside the table is rejected with a 400 before `move_player` runs. -/
def unit_vectors : List (Int × Int) := [(0, -1), (0, 1), (-1, 0), (1, 0)]

/-- The `/event` datagram that only the out-of-bounds branch of `move_player`
emits. -/
def bump_edge_event : OscMsg := ("/event", [OscArg.s "bump_edge"])

/-- Log extension without the edge-bump event: every datagram of the second
state's log was already in the first state's log, or is not the edge-bump
event. -/
def LogExt (g g' : Game) : Prop :=
  ∀ msg ∈ g'.osc_log, msg ∈ g.osc_log ∨ msg ≠ bump_edge_event

/-- The cell region `random.randint(1, width-2) × random.randint(1, height-2)`
samples from, and inside which the walker is clamped. -/
def inInterior (g : Game) (p : Pos) : Prop := interiorWH g.width g.height p

/-- The global invariant of reachable game states: sane configuration, level
and boss-phase bounds, a live-capped player standing on a floor tile,
non-wall tiles only strictly inside the border, exactly one stairs cell, and
positive item powers. -/
structure GameInv (g : Game) : Prop where
  hw : 3 ≤ g.width
  hh : 3 ≤ g.height
  hlevel : 1 ≤ g.level
  hphase : g.nezha_phase ≤ 3
  hplayer : ∃ p : Entity, g.player = some p ∧ p.hp ≤ MAX_HP ∧
    g.tiles (p.x, p.y) = Tile.floor
  htiles : ∀ q : Pos, g.tiles q ≠ Tile.wall → inInterior g q
  hstairs : ∃! q : Pos, g.tiles q = Tile.stairsDown
  hitems : ∀ it ∈ g.items, 1 ≤ it.power

/-- The states of the program: a fresh `Game()` (with a sane configuration, as
the server's 40×20 default), then any sequence of `move_player` / `wait_turn`
calls — exactly what `server.py` drives. -/
inductive Reachable : Game → Prop where
  | start (w h nm ni : Nat) (o : GenOracle) (g : Game) :
      3 ≤ w → 3 ≤ h → game_start w h nm ni o = some g → Reachable g
  | move (g g' : Game) (dx dy : Int) (mo : MoveOracle) :
      (dx, dy) ∈ unit_vectors → Reachable g → move_player g dx dy mo = some g' →
      Reachable g'
  | wait (g : Game) (t : TickOracle) : Reachable g → Reachable (wait_turn g t)

/-- The invariant only looks at width, height, level, phase, player, tiles and
items, so it transfers along equal projections. -/
theorem Inv_of_projections {g g' : Game} (hW : g'.width = g.width)
    (hH : g'.height = g.height) (hL : g'.level = g.level)
    (hPh : g'.nezha_phase = g.nezha_phase) (hP : g'.player = g.player)
    (hT : g'.tiles = g.tiles) (hI : g'.items = g.items) (hinv : GameInv g) : GameInv g' := by
  obtain ⟨i1, i2, i3, i4, ⟨p, hp1, hp2, hp3⟩, i6, i7, i8⟩ := hinv
  refine ⟨by rw [hW]; exact i1, by rw [hH]; exact i2, by rw [hL]; exact i3,
    by rw [hPh]; exact i4, ⟨p, by rw [hP]; exact hp1, hp2, by rw [hT]; exact hp3⟩,
    ?_, by rw [hT]; exact i7, by rw [hI]; exact i8⟩
  intro q hq
  rw [hT] at hq
  have := i6 q hq
  unfold inInterior at this ⊢
  rw [hW, hH]
  exact this

theorem send_osc_state_inv (g : Game) (e : String) (hinv : GameInv g) :
    GameInv (send_osc_state g e) := by
  obtain ⟨S1, S2, _, _, S5, S6, _, S8, _, S10, _, _, _, S14⟩ := send_osc_state_proj g e
  exact Inv_of_projections S1 S2 S10 S14 S6 S5 S8 hinv

/-- Everything the while-grid has: floor on walked cells, wall elsewhere. -/
theorem walkGrid_floor_or_wall (g : Game) (o : GenOracle) (q : Pos) :
    walkGrid g o q = Tile.floor ∨ walkGrid g o q = Tile.wall := by
  unfold walkGrid
  rw [walkPaint_eq]
  by_cases hq : q ∈ walkCells g.width g.height (startPos g) (walkDirs g o) <;>
    simp [hq]

/-- `new_level` (re)establishes the global invariant. -/
theorem new_level_inv (g0 : Game) (first : Bool) (o : GenOracle) (g' : Game)
    (hw : 3 ≤ g0.width) (hh : 3 ≤ g0.height) (hlev : 1 ≤ g0.level)
    (hphase : g0.nezha_phase ≤ 3)
    (hpl : ∀ p : Entity, g0.player = some p → p.hp ≤ MAX_HP)
    (h : new_level g0 first o = some g') : GameInv g' := by
  obtain ⟨W1, W2, _, _, W5, W6, _, _, _, pp, sp, hWpp, hWsp, hppsp, hT, hPL, _, _, hIT⟩ :=
    new_level_shape g0 first o g' h
  obtain ⟨pl, hplv, hplx, hply, hplF, hplO⟩ := hPL
  have hcells_interior : ∀ q : Pos, walkGrid g0 o q = Tile.floor →
      interiorWH g0.width g0.height q := by
    intro q hq
    exact walkCells_interior g0.width g0.height hw hh (walkDirs g0 o) (startPos g0)
      (startPos_interior g0 hw hh) q ((walkGrid_floor_iff g0 o q).mp hq)
  refine ⟨by rw [W1]; exact hw, by rw [W2]; exact hh, ?_, by rw [W6]; exact hphase,
    ?_, ?_, ?_, ?_⟩
  · rw [W5]; split <;> omega
  · refine ⟨pl, hplv, ?_, ?_⟩
    · cases hq : g0.player with
      | none => rw [hplF (Or.inr hq)]
      | some q =>
        cases hfirst : first with
        | true => rw [hplF (Or.inl hfirst)]
        | false =>
          rw [hplO q hfirst hq]
          exact hpl q hq
    · rw [hT]
      unfold setTile
      have hne : (pl.x, pl.y) ≠ sp := by
        rw [hplx, hply]
        intro he
        exact hppsp ((Prod.ext rfl rfl).trans he)
      rw [if_neg hne, hplx, hply]
      exact hWpp
  · intro q hq
    rw [hT] at hq
    unfold setTile at hq
    unfold inInterior
    rw [W1, W2]
    by_cases hqs : q = sp
    · subst hqs
      exact hcells_interior q hWsp
    · rw [if_neg hqs] at hq
      rcases walkGrid_floor_or_wall g0 o q with hf | hwall
      · exact hcells_interior q hf
      · exact absurd hwall hq
  · refine ⟨sp, ?_, ?_⟩
    · rw [hT]; simp [setTile]
    · intro q hq
      rw [hT] at hq
      unfold setTile at hq
      by_cases hqs : q = sp
      · exact hqs
      · rw [if_neg hqs] at hq
        exact absurd hq (walkGrid_ne_stairs g0 o q)
  · intro it hit
    rcases hIT it hit with hwp | hpo
    · exact hwp.2
    · rw [hpo.2]; split <;> omega

/- ---------------- MONSTER AI LEMMAS ---------------- -/

theorem monsterStep_shape (mo : MonOracle) (i : Nat) (g : Game) :
    (monsterStep mo i g).width = g.width ∧ (monsterStep mo i g).height = g.height ∧
    (monsterStep mo i g).num_monsters = g.num_monsters ∧
    (monsterStep mo i g).num_items = g.num_items ∧
    (monsterStep mo i g).tiles = g.tiles ∧ (monsterStep mo i g).items = g.items ∧
    (monsterStep mo i g).level = g.level ∧
    (monsterStep mo i g).nezha_phase = g.nezha_phase ∧
    (monsterStep mo i g).inventory = g.inventory ∧
    (monsterStep mo i g).current_weapon = g.current_weapon ∧
    (monsterStep mo i g).monster_turn_counter = g.monster_turn_counter ∧
    (monsterStep mo i g).monsters.length = g.monsters.length ∧
    (∀ p : Entity, g.player = some p →
      ∃ hp' : Int, (monsterStep mo i g).player = some { p with hp := hp' } ∧ hp' ≤ p.hp) := by
  unfold monsterStep
  cases hpl : g.player with
  | none =>
    exact ⟨rfl, rfl, rfl, rfl, rfl, rfl, rfl, rfl, rfl, rfl, rfl, rfl,
      fun p hp => Option.noConfusion hp⟩
  | some p =>
    dsimp only
    by_cases h0 : (g.monsters.getD i dummyEntity).hp ≤ 0
    · rw [if_pos h0]
      refine ⟨rfl, rfl, rfl, rfl, rfl, rfl, rfl, rfl, rfl, rfl, rfl, rfl, ?_⟩
      intro p' hp'
      cases Option.some.inj hp'
      exact ⟨p.hp, by rw [hpl], le_refl _⟩
    · rw [if_neg h0]
      split <;>
      · split
        · split <;>
          · split
            · obtain ⟨T1, T2, T3, T4, T5, T6, T7, T8, T9, T10, T11, T12, T13, T14⟩ :=
                send_osc_state_proj _ "player_die"
              refine ⟨T1, T2, T3, T4, T5, T8, T10, T14, T11, T12, T13, by rw [T7], ?_⟩
              intro p' hp'
              cases Option.some.inj hp'
              refine ⟨_, T6, ?_⟩
              omega
            · obtain ⟨T1, T2, T3, T4, T5, T6, T7, T8, T9, T10, T11, T12, T13, T14⟩ :=
                send_osc_state_proj _ "player_hit"
              refine ⟨T1, T2, T3, T4, T5, T8, T10, T14, T11, T12, T13, by rw [T7], ?_⟩
              intro p' hp'
              cases Option.some.inj hp'
              refine ⟨_, T6, ?_⟩
              omega
        · split
          · refine ⟨rfl, rfl, rfl, rfl, rfl, rfl, rfl, rfl, rfl, rfl, rfl, by simp, ?_⟩
            intro p' hp'
            cases Option.some.inj hp'
            exact ⟨p.hp, rfl, le_refl _⟩
          · refine ⟨rfl, rfl, rfl, rfl, rfl, rfl, rfl, rfl, rfl, rfl, rfl, rfl, ?_⟩
            intro p' hp'
            cases Option.some.inj hp'
            exact ⟨p.hp, by rw [hpl], le_refl _⟩

theorem monstersLoop_shape (t : TickOracle) :
    ∀ (n i : Nat) (g : Game),
      (monstersLoop t n i g).width = g.width ∧ (monstersLoop t n i g).height = g.height ∧
      (monstersLoop t n i g).num_monsters = g.num_monsters ∧
      (monstersLoop t n i g).num_items = g.num_items ∧
      (monstersLoop t n i g).tiles = g.tiles ∧ (monstersLoop t n i g).items = g.items ∧
      (monstersLoop t n i g).level = g.level ∧
      (monstersLoop t n i g).nezha_phase = g.nezha_phase ∧
      (monstersLoop t n i g).inventory = g.inventory ∧
      (monstersLoop t n i g).current_weapon = g.current_weapon ∧
      (monstersLoop t n i g).monster_turn_counter = g.monster_turn_counter ∧
      (monstersLoop t n i g).monsters.length = g.monsters.length ∧
      (∀ p : Entity, g.player = some p →
        ∃ hp' : Int, (monstersLoop t n i g).player = some { p with hp := hp' } ∧
          hp' ≤ p.hp) := by
  intro n
  induction n with
  | zero =>
    intro i g
    refine ⟨rfl, rfl, rfl, rfl, rfl, rfl, rfl, rfl, rfl, rfl, rfl, rfl, ?_⟩
    intro p hp
    exact ⟨p.hp, by rw [monstersLoop, hp], le_refl _⟩
  | succ n ih =>
    intro i g
    rw [monstersLoop]
    obtain ⟨S1, S2, S3, S4, S5, S6, S7, S8, S9, S10, S11, S12, S13⟩ :=
      monsterStep_shape (t.mons i) i g
    obtain ⟨L1, L2, L3, L4, L5, L6, L7, L8, L9, L10, L11, L12, L13⟩ :=
      ih (i + 1) (monsterStep (t.mons i) i g)
    refine ⟨L1.trans S1, L2.trans S2, L3.trans S3, L4.trans S4, L5.trans S5,
      L6.trans S6, L7.trans S7, L8.trans S8, L9.trans S9, L10.trans S10,
      L11.trans S11, L12.trans S12, ?_⟩
    intro p hp
    obtain ⟨h1, hs1, hle1⟩ := S13 p hp
    obtain ⟨h2, hs2, hle2⟩ := L13 { p with hp := h1 } hs1
    exact ⟨h2, hs2, le_trans hle2 hle1⟩

theorem monsters_take_turns_shape (g : Game) (t : TickOracle) :
    (monsters_take_turns g t).width = g.width ∧
    (monsters_take_turns g t).height = g.height ∧
    (monsters_take_turns g t).num_monsters = g.num_monsters ∧
    (monsters_take_turns g t).num_items = g.num_items ∧
    (monsters_take_turns g t).tiles = g.tiles ∧
    (monsters_take_turns g t).items = g.items ∧
    (monsters_take_turns g t).level = g.level ∧
    (monsters_take_turns g t).nezha_phase = g.nezha_phase ∧
    (monsters_take_turns g t).inventory = g.inventory ∧
    (monsters_take_turns g t).current_weapon = g.current_weapon ∧
    (∀ p : Entity, g.player = some p →
      ∃ hp' : Int, (monsters_take_turns g t).player = some { p with hp := hp' } ∧
        hp' ≤ p.hp) ∧
    (g.player = none → monsters_take_turns g t = g) := by
  unfold monsters_take_turns
  cases hpl : g.player with
  | none =>
    exact ⟨rfl, rfl, rfl, rfl, rfl, rfl, rfl, rfl, rfl, rfl,
      fun p hp => Option.noConfusion hp, fun _ => rfl⟩
  | some p =>
    dsimp only
    by_cases hodd : (g.monster_turn_counter + 1) % 2 = 1
    · rw [if_pos hodd]
      refine ⟨rfl, rfl, rfl, rfl, rfl, rfl, rfl, rfl, rfl, rfl, ?_,
        fun hn => Option.noConfusion hn⟩
      intro p' hp'
      cases Option.some.inj hp'
      exact ⟨p.hp, rfl, le_refl _⟩
    · rw [if_neg hodd]
      obtain ⟨L1, L2, L3, L4, L5, L6, L7, L8, L9, L10, L11, L12, L13⟩ :=
        monstersLoop_shape t g.monsters.length 0
          { g with player := some p, monster_turn_counter := g.monster_turn_counter + 1 }
      refine ⟨L1, L2, L3, L4, L5, L6, L7, L8, L9, L10, ?_,
        fun hn => Option.noConfusion hn⟩
      intro p' hp'
      cases Option.some.inj hp'
      obtain ⟨h1, hs1, hle1⟩ := L13 p rfl
      exact ⟨h1, hs1, hle1⟩

theorem monsters_take_turns_inv (g : Game) (t : TickOracle) (hinv : GameInv g) :
    GameInv (monsters_take_turns g t) := by
  obtain ⟨i1, i2, i3, i4, ⟨p, hp1, hp2, hp3⟩, i6, i7, i8⟩ := hinv
  obtain ⟨S1, S2, S3, S4, S5, S6, S7, S8, S9, S10, S11, S12⟩ :=
    monsters_take_turns_shape g t
  obtain ⟨h1, hs1, hle1⟩ := S11 p hp1
  refine ⟨by rw [S1]; exact i1, by rw [S2]; exact i2, by rw [S7]; exact i3,
    by rw [S8]; exact i4,
    ⟨{ p with hp := h1 }, hs1, le_trans hle1 hp2, by rw [S5]; exact hp3⟩,
    ?_, by rw [S5]; exact i7, by rw [S6]; exact i8⟩
  intro q hq
  rw [S5] at hq
  have := i6 q hq
  unfold inInterior at this ⊢
  rw [S1, S2]
  exact this

/- ---------------- PICKUP / TURN RESOLVER LEMMAS ---------------- -/

/-- Variant of `GameInv_of_projections` allowing the item collection to shrink. -/
theorem GameInv_of_projections' {g g' : Game} (hW : g'.width = g.width)
    (hH : g'.height = g.height) (hL : g'.level = g.level)
    (hPh : g'.nezha_phase = g.nezha_phase) (hP : g'.player = g.player)
    (hT : g'.tiles = g.tiles) (hI : ∀ x ∈ g'.items, x ∈ g.items)
    (hinv : GameInv g) : GameInv g' := by
  obtain ⟨i1, i2, i3, i4, ⟨p, hp1, hp2, hp3⟩, i6, i7, i8⟩ := hinv
  refine ⟨by rw [hW]; exact i1, by rw [hH]; exact i2, by rw [hL]; exact i3,
    by rw [hPh]; exact i4, ⟨p, by rw [hP]; exact hp1, hp2, by rw [hT]; exact hp3⟩,
    ?_, by rw [hT]; exact i7, fun it hit => i8 it (hI it hit)⟩
  intro q hq
  rw [hT] at hq
  have := i6 q hq
  unfold inInterior at this ⊢
  rw [hW, hH]
  exact this

theorem auto_equip_proj (g : Game) (w : Item) :
    (auto_equip_weapon g w).width = g.width ∧ (auto_equip_weapon g w).height = g.height ∧
    (auto_equip_weapon g w).tiles = g.tiles ∧ (auto_equip_weapon g w).player = g.player ∧
    (auto_equip_weapon g w).monsters = g.monsters ∧
    (auto_equip_weapon g w).items = g.items ∧
    (auto_equip_weapon g w).level = g.level ∧
    (auto_equip_weapon g w).nezha_phase = g.nezha_phase ∧
    (auto_equip_weapon g w).monster_turn_counter = g.monster_turn_counter := by
  unfold auto_equip_weapon
  cases g.current_weapon with
  | none => exact ⟨rfl, rfl, rfl, rfl, rfl, rfl, rfl, rfl, rfl⟩
  | some best =>
    dsimp only
    split
    · exact ⟨rfl, rfl, rfl, rfl, rfl, rfl, rfl, rfl, rfl⟩
    · exact ⟨rfl, rfl, rfl, rfl, rfl, rfl, rfl, rfl, rfl⟩

theorem send_osc_state_items (g : Game) (e : String) :
    (send_osc_state g e).items = g.items := (send_osc_state_proj g e).2.2.2.2.2.2.2.1

theorem send_osc_state_messages (g : Game) (e : String) :
    (send_osc_state g e).messages = g.messages :=
  (send_osc_state_proj g e).2.2.2.2.2.2.2.2.1

theorem send_osc_state_width (g : Game) (e : String) :
    (send_osc_state g e).width = g.width := (send_osc_state_proj g e).1

theorem send_osc_state_height (g : Game) (e : String) :
    (send_osc_state g e).height = g.height := (send_osc_state_proj g e).2.1

theorem send_osc_state_level (g : Game) (e : String) :
    (send_osc_state g e).level = g.level :=
  (send_osc_state_proj g e).2.2.2.2.2.2.2.2.2.1

theorem send_osc_state_nezha_phase (g : Game) (e : String) :
    (send_osc_state g e).nezha_phase = g.nezha_phase :=
  (send_osc_state_proj g e).2.2.2.2.2.2.2.2.2.2.2.2.2

theorem send_osc_state_counter (g : Game) (e : String) :
    (send_osc_state g e).monster_turn_counter = g.monster_turn_counter :=
  (send_osc_state_proj g e).2.2.2.2.2.2.2.2.2.2.2.2.1

/-- C9's heal rule: on a reachable-state-like configuration (player hit points
at most `MAX_HP`, non-negative potion power), picking up a potion adds exactly
`min(MAX_HP - hp, power)` hit points, with the heal message when the amount is
positive and the neutral message otherwise. -/
theorem check_pickup_potion (g : Game) (p : Entity) (it : Item)
    (hp : g.player = some p) (hple : p.hp ≤ MAX_HP) (hpow : 0 ≤ it.power)
    (hit : get_item_at g p.x p.y = some it) (hkind : it.kind = "potion") :
    (check_pickup g).player = some { p with hp := p.hp + min (MAX_HP - p.hp) it.power } ∧
    (0 < min (MAX_HP - p.hp) it.power →
      (check_pickup g).messages =
        g.messages ++ [healMsg (min (MAX_HP - p.hp) it.power)]) ∧
    (min (MAX_HP - p.hp) it.power ≤ 0 →
      (check_pickup g).messages = g.messages ++ ["You drink, but feel no different."]) ∧
    (check_pickup g).items = g.items.erase it := by
  unfold check_pickup
  rw [hp]
  dsimp only
  rw [hit]
  dsimp only
  have hnw : ¬(it.kind = "weapon") := by rw [hkind]; decide
  rw [if_neg hnw, if_pos hkind]
  by_cases hpos : 0 < min (MAX_HP - p.hp) it.power
  · rw [if_pos hpos]
    refine ⟨?_, fun _ => ?_, fun hle => absurd hpos (by omega), ?_⟩
    · rw [send_osc_state_player]
    · rw [send_osc_state_messages]
    · rw [send_osc_state_items]
  · rw [if_neg hpos]
    have h10 : MAX_HP = 10 := rfl
    have hz : min (MAX_HP - p.hp) it.power = 0 := by
      rw [h10] at hple ⊢
      omega
    refine ⟨?_, fun hc => absurd hc hpos, fun _ => ?_, ?_⟩
    · rw [send_osc_state_player]
      show some p = some { p with hp := p.hp + min (MAX_HP - p.hp) it.power }
      have hadd : p.hp + min (MAX_HP - p.hp) it.power = p.hp := by
        rw [hz]; omega
      rw [hadd]
    · rw [send_osc_state_messages]
    · rw [send_osc_state_items]

theorem check_pickup_inv (g : Game) (hinv : GameInv g) : GameInv (check_pickup g) := by
  unfold check_pickup
  cases hpl : g.player with
  | none => exact hinv
  | some p =>
    dsimp only
    cases hit : get_item_at g p.x p.y with
    | none => exact hinv
    | some it =>
      dsimp only
      split
      · -- weapon
        refine send_osc_state_inv _ _ ?_
        obtain ⟨A1, A2, A3, A4, A5, A6, A7, A8, A9⟩ := auto_equip_proj _ it
        refine GameInv_of_projections' (show _ = g.width from A1)
          (show _ = g.height from A2) (show _ = g.level from A7)
          (show _ = g.nezha_phase from A8) ?_ (show _ = g.tiles from A3) ?_ hinv
        · rw [A4, hpl]
        · intro x hx
          rw [A6] at hx
          exact List.mem_of_mem_erase hx
      · split
        · -- potion
          split
          · -- positive heal
            rename_i hhealed
            refine send_osc_state_inv _ _ ?_
            obtain ⟨i1, i2, i3, i4, ⟨q, hq1, hq2, hq3⟩, i6, i7, i8⟩ := hinv
            have hqp : q = p := Option.some.inj ((hpl ▸ hq1 : some p = some q)).symm
            subst hqp
            refine ⟨i1, i2, i3, i4, ⟨{ q with hp := q.hp + min (MAX_HP - q.hp) it.power },
              rfl, ?_, hq3⟩, i6, i7, ?_⟩
            · show q.hp + min (MAX_HP - q.hp) it.power ≤ MAX_HP
              omega
            intro x hx
            exact i8 x (List.mem_of_mem_erase hx)
          · -- no heal
            refine send_osc_state_inv _ _ ?_
            refine GameInv_of_projections' (show _ = g.width from rfl)
              (show _ = g.height from rfl) (show _ = g.level from rfl)
              (show _ = g.nezha_phase from rfl) ?_ (show _ = g.tiles from rfl) ?_ hinv
            · exact hpl.symm
            · intro x hx
              exact List.mem_of_mem_erase hx
        · -- neither weapon nor potion: the item is still removed
          refine GameInv_of_projections' (show _ = g.width from rfl)
            (show _ = g.height from rfl) (show _ = g.level from rfl)
            (show _ = g.nezha_phase from rfl) ?_ (show _ = g.tiles from rfl) ?_ hinv
          · exact hpl.symm
          · intro x hx
            exact List.mem_of_mem_erase hx

theorem move_player_inv (g g' : Game) (dx dy : Int) (mo : MoveOracle)
    (hinv : GameInv g) (h : move_player g dx dy mo = some g') : GameInv g' := by
  obtain ⟨i1, i2, i3, i4, ⟨p, hp1, hp2, hp3⟩, i6, i7, i8⟩ := hinv
  have hinv' : GameInv g := ⟨i1, i2, i3, i4, ⟨p, hp1, hp2, hp3⟩, i6, i7, i8⟩
  unfold move_player at h
  rw [hp1] at h
  dsimp only at h
  split at h
  · -- bump edge
    cases Option.some.inj h
    refine send_osc_state_inv _ _ ?_
    exact GameInv_of_projections' (show _ = g.width from rfl) (show _ = g.height from rfl)
      (show _ = g.level from rfl) (show _ = g.nezha_phase from rfl) hp1.symm
      (show _ = g.tiles from rfl) (fun x hx => hx) hinv'
  · split at h
    · -- attack branch
      rename_i ti hidx
      cases Option.some.inj h
      refine send_osc_state_inv _ _ (monsters_take_turns_inv _ _ ?_)
      split
      · -- the monster dies
        split
        · -- it is Nezha: the phase counter advances
          exact ⟨i1, i2, i3, by show min (g.nezha_phase + 1) 3 ≤ 3; omega,
            ⟨p, rfl, hp2, hp3⟩, i6, i7, i8⟩
        · -- an ordinary monster
          exact ⟨i1, i2, i3, i4, ⟨p, rfl, hp2, hp3⟩, i6, i7, i8⟩
      · -- the monster survives
        exact ⟨i1, i2, i3, i4, ⟨p, rfl, hp2, hp3⟩, i6, i7, i8⟩
    · -- no monster at the destination: branch on the tile
      split at h
      · -- stairs: descend
        refine new_level_inv _ false mo.gen g' ?_ ?_ ?_ ?_ ?_ h
        · exact i1
        · exact i2
        · exact i3
        · exact i4
        · intro q hq
          cases Option.some.inj hq
          exact hp2
      · -- floor: step, pick up, monsters act
        rename_i htile
        cases Option.some.inj h
        refine send_osc_state_inv _ _
          (monsters_take_turns_inv _ _ (check_pickup_inv _ ?_))
        exact ⟨i1, i2, i3, i4,
          ⟨{ p with x := p.x + dx, y := p.y + dy }, rfl, hp2, htile⟩, i6, i7, i8⟩
      · -- wall: bump
        cases Option.some.inj h
        refine send_osc_state_inv _ _ ?_
        exact GameInv_of_projections' (show _ = g.width from rfl)
          (show _ = g.height from rfl) (show _ = g.level from rfl)
          (show _ = g.nezha_phase from rfl) hp1.symm (show _ = g.tiles from rfl)
          (fun x hx => hx) hinv'

theorem wait_turn_inv (g : Game) (t : TickOracle) (hinv : GameInv g) :
    GameInv (wait_turn g t) := by
  obtain ⟨i1, i2, i3, i4, ⟨p, hp1, hp2, hp3⟩, i6, i7, i8⟩ := hinv
  refine send_osc_state_inv _ _ (monsters_take_turns_inv _ _ ?_)
  exact ⟨i1, i2, i3, i4, ⟨p, by show g.player = some p; exact hp1, hp2, hp3⟩, i6, i7, i8⟩

/-- Every reachable state satisfies the global invariant. -/
theorem reachable_inv (g : Game) (h : Reachable g) : GameInv g := by
  induction h with
  | start w h nm ni o g hw hh hg =>
    unfold game_start at hg
    cases hnl : new_level (initGame w h nm ni) true o with
    | none => rw [hnl] at hg; exact Option.noConfusion hg
    | some g1 =>
      rw [hnl] at hg
      simp only [Option.map_some'] at hg
      cases Option.some.inj hg
      refine send_osc_state_inv _ _ ?_
      refine new_level_inv _ true o g1 hw hh (by show (1:Int) ≤ 1; omega)
        (by show (0:Nat) ≤ 3; omega) ?_ hnl
      intro q hq
      exact Option.noConfusion hq
  | move g g' dx dy mo _ _ hm ih => exact move_player_inv g g' dx dy mo ih hm
  | wait g t _ ih => exact wait_turn_inv g t ih

/- ---------------- CLAIM THEOREMS ---------------- -/

/-- C2 — encoding address `/level` with the single integer argument 5 yields
exactly the 8-byte address block (UTF-8 of `/level`, null-terminated and
zero-padded to the next 4-byte boundary), the 4-byte tag block `",i"` padded
the same way, and the 4-byte big-endian two's-complement encoding of 5. -/
theorem C2_osc_level_packet :
    osc_pack "/level" [OscArg.i 5] =
      (strUtf8 "/level" ++ [0, 0]) ++ (strUtf8 ",i" ++ [0, 0]) ++ [0, 0, 0, 5] ∧
    osc_pack "/level" [OscArg.i 5] =
      [47, 108, 101, 118, 101, 108, 0, 0] ++ [44, 105, 0, 0] ++ [0, 0, 0, 5] ∧
    osc_pack_string "/level" = strUtf8 "/level" ++ [0, 0] ∧
    (osc_pack_string "/level").length = 8 ∧
    osc_pack_string ",i" = strUtf8 ",i" ++ [0, 0] ∧
    (osc_pack_string ",i").length = 4 ∧
    int32be 5 = [0, 0, 0, 5] := by
  refine ⟨?_, ?_, ?_, ?_, ?_, ?_, ?_⟩ <;> decide

/-- C5 — the scheduler's counter grows by exactly 1 on every invocation that
reaches it (the player exists); when the incremented counter is odd the call
changes nothing else (monsters neither move nor attack), and when it is even
the per-monster pass runs followed by the dead-monster filter. -/
theorem C5_half_speed_scheduler (g : Game) (t : TickOracle) (p : Entity)
    (hp : g.player = some p) :
    (monsters_take_turns g t).monster_turn_counter = g.monster_turn_counter + 1 ∧
    ((g.monster_turn_counter + 1) % 2 = 1 →
      monsters_take_turns g t =
        { g with monster_turn_counter := g.monster_turn_counter + 1 }) ∧
    ((g.monster_turn_counter + 1) % 2 = 0 →
      monsters_take_turns g t =
        { monstersLoop t g.monsters.length 0
            { g with monster_turn_counter := g.monster_turn_counter + 1 } with
          monsters := (monstersLoop t g.monsters.length 0
            { g with monster_turn_counter := g.monster_turn_counter + 1 }).monsters.filter
              (fun m => decide (0 < m.hp)) }) := by
  refine ⟨?_, ?_, ?_⟩
  · unfold monsters_take_turns
    rw [hp]
    dsimp only
    by_cases hodd : (g.monster_turn_counter + 1) % 2 = 1
    · rw [if_pos hodd]
    · rw [if_neg hodd]
      obtain ⟨L1, L2, L3, L4, L5, L6, L7, L8, L9, L10, L11, L12, L13⟩ :=
        monstersLoop_shape t g.monsters.length 0
          { g with player := some p, monster_turn_counter := g.monster_turn_counter + 1 }
      exact L11
  · intro hodd
    unfold monsters_take_turns
    rw [hp]
    dsimp only
    rw [if_pos hodd, ← hp]
  · intro heven
    unfold monsters_take_turns
    rw [hp]
    dsimp only
    rw [if_neg (by omega : ¬(g.monster_turn_counter + 1) % 2 = 1), ← hp]

/-- C6 — every run of the level generator leaves exactly one `StairsDown`
cell in the grid, and hence every reachable game state has exactly one. -/
theorem C6_unique_stairs :
    (∀ (g0 : Game) (first : Bool) (o : GenOracle) (g' : Game),
      new_level g0 first o = some g' → ∃! q : Pos, g'.tiles q = Tile.stairsDown) ∧
    (∀ g : Game, Reachable g → ∃! q : Pos, g.tiles q = Tile.stairsDown) := by
  constructor
  · intro g0 first o g' h
    obtain ⟨_, _, _, _, _, _, _, _, _, pp, sp, hWpp, hWsp, hppsp, hT, _, _, _, _⟩ :=
      new_level_shape g0 first o g' h
    refine ⟨sp, ?_, ?_⟩
    · rw [hT]; simp [setTile]
    · intro q hq
      rw [hT] at hq
      unfold setTile at hq
      by_cases hqs : q = sp
      · exact hqs
      · rw [if_neg hqs] at hq
        exact absurd hq (walkGrid_ne_stairs g0 o q)
  · intro g h
    exact (reachable_inv g h).hstairs

/-- C9 — a potion pickup heals exactly `min(MAX_HP - hp, power)` hit points
(with the heal message when that amount is positive and the neutral message
otherwise), and in every reachable state the player's hit points never exceed
the configured maximum. -/
theorem C9_potion_heal_capped :
    (∀ (g : Game) (p : Entity) (it : Item),
      g.player = some p → p.hp ≤ MAX_HP → 0 ≤ it.power →
      get_item_at g p.x p.y = some it → it.kind = "potion" →
      (check_pickup g).player =
        some { p with hp := p.hp + min (MAX_HP - p.hp) it.power } ∧
      (0 < min (MAX_HP - p.hp) it.power →
        (check_pickup g).messages =
          g.messages ++ [healMsg (min (MAX_HP - p.hp) it.power)]) ∧
      (min (MAX_HP - p.hp) it.power ≤ 0 →
        (check_pickup g).messages =
          g.messages ++ ["You drink, but feel no different."])) ∧
    (∀ g : Game, Reachable g → ∀ p : Entity, g.player = some p → p.hp ≤ MAX_HP) := by
  constructor
  · intro g p it hp hple hpow hit hkind
    obtain ⟨h1, h2, h3, _⟩ := check_pickup_potion g p it hp hple hpow hit hkind
    exact ⟨h1, h2, h3⟩
  · intro g h p hp
    obtain ⟨q, hq1, hq2, _⟩ := (reachable_inv g h).hplayer
    cases Option.some.inj (hp ▸ hq1)
    exact hq2

theorem check_pickup_proj (g : Game) :
    (check_pickup g).width = g.width ∧ (check_pickup g).height = g.height ∧
    (check_pickup g).tiles = g.tiles ∧ (check_pickup g).monsters = g.monsters ∧
    (check_pickup g).level = g.level ∧ (check_pickup g).nezha_phase = g.nezha_phase ∧
    (check_pickup g).monster_turn_counter = g.monster_turn_counter ∧
    (∀ p : Entity, g.player = some p →
      ∃ hp' : Int, (check_pickup g).player = some { p with hp := hp' }) := by
  unfold check_pickup
  cases hpl : g.player with
  | none =>
    exact ⟨rfl, rfl, rfl, rfl, rfl, rfl, rfl, fun p hp => Option.noConfusion hp⟩
  | some p =>
    dsimp only
    cases hit : get_item_at g p.x p.y with
    | none =>
      refine ⟨rfl, rfl, rfl, rfl, rfl, rfl, rfl, ?_⟩
      intro p' hp'
      cases Option.some.inj hp'
      exact ⟨p.hp, by rw [hpl]⟩
    | some it =>
      dsimp only
      split
      · obtain ⟨A1, A2, A3, A4, A5, A6, A7, A8, A9⟩ := auto_equip_proj _ it
        obtain ⟨T1, T2, T3, T4, T5, T6, T7, T8, T9, T10, T11, T12, T13, T14⟩ :=
          send_osc_state_proj _ "pickup_weapon"
        refine ⟨T1.trans A1, T2.trans A2, T5.trans A3, T7.trans A5, T10.trans A7,
          T14.trans A8, T13.trans A9, ?_⟩
        intro p' hp'
        cases Option.some.inj hp'
        exact ⟨p.hp, T6.trans A4⟩
      · split
        · split
          · refine ⟨send_osc_state_width _ _, send_osc_state_height _ _,
              send_osc_state_tiles _ _, send_osc_state_monsters _ _,
              send_osc_state_level _ _, send_osc_state_nezha_phase _ _,
              send_osc_state_counter _ _, ?_⟩
            intro p' hp'
            cases Option.some.inj hp'
            exact ⟨p.hp + min (MAX_HP - p.hp) it.power, send_osc_state_player _ _⟩
          · refine ⟨send_osc_state_width _ _, send_osc_state_height _ _,
              send_osc_state_tiles _ _, send_osc_state_monsters _ _,
              send_osc_state_level _ _, send_osc_state_nezha_phase _ _,
              send_osc_state_counter _ _, ?_⟩
            intro p' hp'
            cases Option.some.inj hp'
            exact ⟨p.hp, send_osc_state_player _ _⟩
        · refine ⟨rfl, rfl, rfl, rfl, rfl, rfl, rfl, ?_⟩
          intro p' hp'
          cases Option.some.inj hp'
          exact ⟨p.hp, rfl⟩

/-- How each `move_player` call treats the boss-phase counter: it is unchanged
unless the destination holds a living monster named Nezha whose hit points
drop to 0 or below, in which case it becomes `min (phase + 1) 3`. -/
theorem move_player_phase (g g' : Game) (dx dy : Int) (mo : MoveOracle) (p : Entity)
    (hp : g.player = some p) (h : move_player g dx dy mo = some g') :
    g'.nezha_phase = g.nezha_phase ∨
    (g'.nezha_phase = min (g.nezha_phase + 1) 3 ∧
      ∃ ti : Nat,
        g.monsters.findIdx?
          (fun m => decide (m.x = p.x + dx ∧ m.y = p.y + dy ∧ 0 < m.hp)) = some ti ∧
        (g.monsters.getD ti dummyEntity).name = "Nezha" ∧
        (g.monsters.getD ti dummyEntity).hp - player_attack_damage g mo.atkBase ≤ 0) := by
  unfold move_player at h
  rw [hp] at h
  dsimp only at h
  split at h
  · cases Option.some.inj h
    left
    rw [send_osc_state_nezha_phase]
  · split at h
    · rename_i ti hidx
      cases Option.some.inj h
      rw [send_osc_state_nezha_phase]
      obtain ⟨_, _, _, _, _, _, _, S8, _⟩ := monsters_take_turns_shape _ mo.tick
      rw [S8]
      split
      · split
        · rename_i hdie hnez
          right
          exact ⟨rfl, ti, hidx, hnez, hdie⟩
        · left; rfl
      · left; rfl
    · split at h
      · obtain ⟨_, _, _, _, _, W6, _⟩ := new_level_shape _ false mo.gen g' h
        left
        exact W6
      · cases Option.some.inj h
        left
        rw [send_osc_state_nezha_phase]
        obtain ⟨_, _, _, _, _, _, _, S8, _⟩ := monsters_take_turns_shape _ mo.tick
        rw [S8]
        exact (check_pickup_proj _).2.2.2.2.2.1
      · cases Option.some.inj h
        left
        rw [send_osc_state_nezha_phase]

/-- C4 — the boss-phase counter starts at 0 and stays in `{0,1,2,3}`; a move
changes it only in the kill branch of a monster named Nezha, to
`min (phase + 1) 3`; a wait never changes it; the generator spawns a boss
exactly when the new level is at least 2 and the phase is below 3, always with
hit points `8 + phase * 5`; once the phase is 3 no generator run spawns one. -/
theorem C4_boss_phase_machine :
    (∀ (w h nm ni : Nat) (o : GenOracle) (g : Game),
      game_start w h nm ni o = some g → g.nezha_phase = 0) ∧
    (∀ g : Game, Reachable g → g.nezha_phase ≤ 3) ∧
    (∀ (g g' : Game) (dx dy : Int) (mo : MoveOracle) (p : Entity),
      g.player = some p → move_player g dx dy mo = some g' →
      g'.nezha_phase = g.nezha_phase ∨
      (g'.nezha_phase = min (g.nezha_phase + 1) 3 ∧
        ∃ ti : Nat,
          g.monsters.findIdx?
            (fun m => decide (m.x = p.x + dx ∧ m.y = p.y + dy ∧ 0 < m.hp)) = some ti ∧
          (g.monsters.getD ti dummyEntity).name = "Nezha" ∧
          (g.monsters.getD ti dummyEntity).hp - player_attack_damage g mo.atkBase ≤ 0)) ∧
    (∀ (g : Game) (t : TickOracle), (wait_turn g t).nezha_phase = g.nezha_phase) ∧
    (∀ (g0 : Game) (first : Bool) (o : GenOracle) (g' : Game),
      new_level g0 first o = some g' →
      g'.nezha_phase = g0.nezha_phase ∧
      ((∃ m ∈ g'.monsters, m.name = "Nezha") ↔
        (2 ≤ g'.level ∧ g0.nezha_phase < 3)) ∧
      (∀ m ∈ g'.monsters, m.name = "Nezha" →
        m.hp = 8 + (g0.nezha_phase : Int) * 5) ∧
      (g0.nezha_phase = 3 → ∀ m ∈ g'.monsters, m.name ≠ "Nezha")) := by
  refine ⟨?_, ?_, move_player_phase, ?_, ?_⟩
  · intro w h nm ni o g hg
    unfold game_start at hg
    cases hnl : new_level (initGame w h nm ni) true o with
    | none => rw [hnl] at hg; exact Option.noConfusion hg
    | some g1 =>
      rw [hnl] at hg
      simp only [Option.map_some'] at hg
      cases Option.some.inj hg
      rw [send_osc_state_nezha_phase]
      obtain ⟨_, _, _, _, _, W6, _⟩ := new_level_shape _ true o g1 hnl
      rw [W6]
      rfl
  · intro g h
    exact (reachable_inv g h).hphase
  · intro g t
    unfold wait_turn
    rw [send_osc_state_nezha_phase]
    obtain ⟨_, _, _, _, _, _, _, S8, _⟩ := monsters_take_turns_shape _ t
    exact S8
  · intro g0 first o g' h
    obtain ⟨_, _, _, _, W5, W6, _, _, _, _, _, _, _, _, _, _, hmons, hnez, _⟩ :=
      new_level_shape g0 first o g' h
    refine ⟨W6, by rw [W5]; exact hnez, ?_, ?_⟩
    · intro m hm hname
      rcases hmons m hm with hgob | hne
      · rw [hname] at hgob
        exact absurd hgob.1 (by decide)
      · exact hne.2
    · intro h3 m hm hname
      have := hnez.mp ⟨m, hm, hname⟩
      omega

/-- If `find?` misses on a list, so does `findIdx?`. -/
theorem findIdx_none_of_find_none {α : Type} (q : α → Bool) (L : List α)
    (h : L.find? q = none) : L.findIdx? q = none := by
  induction L with
  | nil => rfl
  | cons a l ih =>
    by_cases hq : q a
    · rw [List.find?_cons_of_pos _ hq] at h
      cases h
    · rw [List.find?_cons_of_neg _ hq] at h
      rw [List.findIdx?_cons]
      simp [hq, ih h]

/-- C7 — stepping onto the stairs increments the level counter by exactly 1,
replaces the tile grid (a fresh walk-painted grid with one stairs cell), the
monster collection (all fresh, with positive hit points) and the item
collection (fresh weapons and potions of the new level), keeps the player
entity's hit points, character, name, inventory and equipped weapon (only the
position is re-sampled), and does not invoke the monster scheduler: its
counter is unchanged. -/
theorem C7_descend_frame (g : Game) (dx dy : Int) (o : MoveOracle) (p : Entity) (g' : Game)
    (hp : g.player = some p)
    (hb : in_bounds g (p.x + dx) (p.y + dy) = true)
    (hm : get_monster_at g (p.x + dx) (p.y + dy) = none)
    (ht : g.tiles (p.x + dx, p.y + dy) = Tile.stairsDown)
    (h : move_player g dx dy o = some g') :
    g'.level = g.level + 1 ∧
    (∃ px py : Int, g'.player = some { p with x := px, y := py }) ∧
    g'.inventory = g.inventory ∧
    g'.current_weapon = g.current_weapon ∧
    g'.monster_turn_counter = g.monster_turn_counter ∧
    (∃ sp : Pos, g'.tiles = setTile (walkGrid g o.gen) sp Tile.stairsDown) ∧
    (∀ m ∈ g'.monsters, 0 < m.hp) ∧
    (∀ it ∈ g'.items,
      (it.kind = "weapon" ∧ 1 ≤ it.power) ∨
      (it.kind = "potion" ∧ it.power = 4 + (g.level + 1))) := by
  have hm' : g.monsters.find?
      (fun m => decide (m.x = p.x + dx ∧ m.y = p.y + dy ∧ 0 < m.hp)) = none := hm
  have hidx0 := findIdx_none_of_find_none _ _ hm'
  unfold move_player at h
  rw [hp] at h
  dsimp only at h
  split at h
  · rename_i hnb
    exact absurd hb hnb
  · split at h
    · rename_i ti hti
      rw [hidx0] at hti
      cases hti
    · split at h
      · -- the stairs branch: the descent
        obtain ⟨W1, W2, W3, W4, W5, W6, W7, W8, W9, pp, sp, hppF, hspF, hne, htl,
          ⟨pl, hplE, hplx, hply, hfresh, hcarry⟩, hmon, hnez, hitems⟩ :=
          new_level_shape _ false o.gen g' h
        refine ⟨W5, ⟨pp.1, pp.2, ?_⟩, W8, W9, W7, ⟨sp, htl⟩, ?_, hitems⟩
        · rw [hplE, hcarry p rfl rfl]
        · intro m hmem
          rcases hmon m hmem with ⟨_, hhp⟩ | ⟨_, hhp⟩
          · have h3 : m.hp = 3 + max 0 (g.level + 1 - 1) := hhp
            omega
          · have h8 : m.hp = 8 + (g.nezha_phase : Int) * 5 := hhp
            omega
      · rename_i htile
        exact Tile.noConfusion (ht.symm.trans htile)
      · rename_i htile
        exact Tile.noConfusion (ht.symm.trans htile)

/- ---------------- THE EDGE-BUMP EVENT IS NEVER LOGGED ---------------- -/

theorem LogExt_refl (g : Game) : LogExt g g := fun _ h => Or.inl h

theorem LogExt_trans {g1 g2 g3 : Game} (h12 : LogExt g1 g2) (h23 : LogExt g2 g3) :
    LogExt g1 g3 := by
  intro msg h
  rcases h23 msg h with h' | h'
  · exact h12 msg h'
  · exact Or.inr h'

theorem LogExt_of_log_eq {g g' : Game} (h : g'.osc_log = g.osc_log) : LogExt g g' := by
  intro msg hm
  rw [h] at hm
  exact Or.inl hm

theorem LogExt_osc_send (g : Game) (a : String) (args : List OscArg)
    (h : (a, args) ≠ bump_edge_event) : LogExt g (osc_send g a args) := by
  intro msg hm
  rcases List.mem_append.mp hm with h1 | h2
  · exact Or.inl h1
  · rw [List.mem_singleton] at h2
    subst h2
    exact Or.inr h

/-- Every datagram `_send_osc_state` appends is one of the five state packets. -/
theorem send_osc_state_log_mem (g : Game) (e : String) (msg : OscMsg)
    (h : msg ∈ (send_osc_state g e).osc_log) :
    msg ∈ g.osc_log ∨ msg.1 = "/player" ∨ msg.1 = "/level" ∨ msg.1 = "/monsters" ∨
      msg = ("/event", [OscArg.s e]) ∨ msg.1 = "/message" := by
  unfold send_osc_state at h
  cases hp : g.player with
  | none =>
    rw [hp] at h
    exact Or.inl h
  | some p =>
    rw [hp] at h
    dsimp only at h
    by_cases he : e ≠ ""
    · rw [if_pos he] at h
      cases hm : g.messages.getLast? with
      | none =>
        rw [hm] at h
        dsimp only at h
        simp only [osc_send, List.mem_append, List.mem_singleton] at h
        rcases h with (((h | h) | h) | h) | h
        · exact Or.inl h
        · subst h; exact Or.inr (Or.inl rfl)
        · subst h; exact Or.inr (Or.inr (Or.inl rfl))
        · subst h; exact Or.inr (Or.inr (Or.inr (Or.inl rfl)))
        · exact Or.inr (Or.inr (Or.inr (Or.inr (Or.inl h))))
      | some m =>
        rw [hm] at h
        dsimp only at h
        simp only [osc_send, List.mem_append, List.mem_singleton] at h
        rcases h with ((((h | h) | h) | h) | h) | h
        · exact Or.inl h
        · subst h; exact Or.inr (Or.inl rfl)
        · subst h; exact Or.inr (Or.inr (Or.inl rfl))
        · subst h; exact Or.inr (Or.inr (Or.inr (Or.inl rfl)))
        · subst h; exact Or.inr (Or.inr (Or.inr (Or.inr (Or.inl rfl))))
        · subst h; exact Or.inr (Or.inr (Or.inr (Or.inr (Or.inr rfl))))
    · rw [if_neg he] at h
      cases hm : g.messages.getLast? with
      | none =>
        rw [hm] at h
        dsimp only at h
        simp only [osc_send, List.mem_append, List.mem_singleton] at h
        rcases h with ((h | h) | h) | h
        · exact Or.inl h
        · subst h; exact Or.inr (Or.inl rfl)
        · subst h; exact Or.inr (Or.inr (Or.inl rfl))
        · subst h; exact Or.inr (Or.inr (Or.inr (Or.inl rfl)))
      | some m =>
        rw [hm] at h
        dsimp only at h
        simp only [osc_send, List.mem_append, List.mem_singleton] at h
        rcases h with (((h | h) | h) | h) | h
        · exact Or.inl h
        · subst h; exact Or.inr (Or.inl rfl)
        · subst h; exact Or.inr (Or.inr (Or.inl rfl))
        · subst h; exact Or.inr (Or.inr (Or.inr (Or.inl rfl)))
        · subst h; exact Or.inr (Or.inr (Or.inr (Or.inr (Or.inr rfl))))

theorem LogExt_send_osc_state (g : Game) (e : String) (he : e ≠ "bump_edge") :
    LogExt g (send_osc_state g e) := by
  intro msg hm
  rcases send_osc_state_log_mem g e msg hm with h | h | h | h | h | h
  · exact Or.inl h
  · right; intro heq; rw [heq] at h; exact absurd h (by decide)
  · right; intro heq; rw [heq] at h; exact absurd h (by decide)
  · right; intro heq; rw [heq] at h; exact absurd h (by decide)
  · right; intro heq; rw [h] at heq; simp [bump_edge_event] at heq; exact he heq
  · right; intro heq; rw [heq] at h; exact absurd h (by decide)

theorem paintedGame_log (g : Game) (first : Bool) (o : GenOracle) :
    (paintedGame g first o).osc_log = g.osc_log := by
  unfold paintedGame descendStage
  cases first <;> rfl

theorem finalMessages_log (g : Game) (first : Bool) :
    (finalMessages g first).osc_log = g.osc_log := by
  unfold finalMessages
  cases first <;> rfl

theorem auto_equip_log (g : Game) (w : Item) :
    (auto_equip_weapon g w).osc_log = g.osc_log := by
  unfold auto_equip_weapon
  cases g.current_weapon with
  | none => rfl
  | some best =>
    dsimp only
    split <;> rfl

theorem spawnNezha_logext (g : Game) (o : GenOracle) (k : Nat) (g6 : Game) (k6 : Nat)
    (h : spawnNezha g o k = some (g6, k6)) : LogExt g g6 := by
  unfold spawnNezha at h
  split at h
  · obtain ⟨np, hfind, heq⟩ := Option.map_eq_some'.mp h
    cases heq
    exact LogExt_trans (LogExt_of_log_eq rfl) (LogExt_osc_send _ _ _ (by decide))
  · cases Option.some.inj h
    exact LogExt_refl g

theorem new_level_logext (g0 : Game) (first : Bool) (o : GenOracle) (g' : Game)
    (h : new_level g0 first o = some g') : LogExt g0 g' := by
  unfold new_level at h
  obtain ⟨g3, h3, h⟩ := Option.bind_eq_some.mp h
  obtain ⟨gk5, h5, h⟩ := Option.bind_eq_some.mp h
  obtain ⟨gk6, h6, h⟩ := Option.bind_eq_some.mp h
  obtain ⟨gk8, h8, h⟩ := Option.bind_eq_some.mp h
  obtain ⟨g9, h9, hg'⟩ := Option.map_eq_some'.mp h
  subst hg'
  obtain ⟨pp, hppE, hg3⟩ := placePlayer_spec _ _ _ _ h3
  subst hg3
  have A : LogExt g0 { paintedGame g0 first o with player :=
      match (paintedGame g0 first o).player with
      | none => some ⟨pp.1, pp.2, "@", "Player", MAX_HP⟩
      | some p =>
        if first then some ⟨pp.1, pp.2, "@", "Player", MAX_HP⟩
        else some { p with x := pp.1, y := pp.2 } } :=
    LogExt_of_log_eq (paintedGame_log g0 first o)
  have M14 := (placeMonsters_shape o _ _ _ gk5.1 gk5.2 h5).2.2.2.2.2.2.2.2.2.2.2.2.2.1
  have I14 := (placeItems_shape o _ _ _ gk8.1 gk8.2 h8).2.2.2.2.2.2.2.2.2.2.2.2.2.1
  obtain ⟨sp, hspE, hg9⟩ := placeStairs_spec _ _ _ h9
  refine LogExt_trans A (LogExt_trans (LogExt_of_log_eq M14)
    (LogExt_trans (spawnNezha_logext _ o _ _ _ h6)
      (LogExt_trans (LogExt_of_log_eq I14)
        (LogExt_trans (LogExt_of_log_eq (show g9.osc_log = gk8.1.osc_log by rw [hg9]))
          (LogExt_trans (LogExt_of_log_eq (finalMessages_log g9 first))
            (LogExt_send_osc_state (finalMessages g9 first) "new_level" (by decide)))))))

theorem monsterStep_logext (mo : MonOracle) (i : Nat) (g : Game) :
    LogExt g (monsterStep mo i g) := by
  unfold monsterStep
  cases hp : g.player with
  | none => exact LogExt_refl g
  | some p =>
    dsimp only
    split
    · exact LogExt_refl g
    · repeat' split
      all_goals
        first
          | exact LogExt_refl g
          | exact LogExt_of_log_eq rfl
          | exact LogExt_trans (LogExt_of_log_eq rfl)
              (LogExt_send_osc_state _ _ (by decide))

theorem monstersLoop_logext (o : TickOracle) :
    ∀ (n i : Nat) (g : Game), LogExt g (monstersLoop o n i g) := by
  intro n
  induction n with
  | zero => intro i g; exact LogExt_refl g
  | succ n ih =>
    intro i g
    exact LogExt_trans (monsterStep_logext (o.mons i) i g) (ih (i + 1) _)

theorem monsters_take_turns_logext (g : Game) (o : TickOracle) :
    LogExt g (monsters_take_turns g o) := by
  unfold monsters_take_turns
  cases hp : g.player with
  | none => exact LogExt_refl g
  | some p =>
    dsimp only
    split
    · exact LogExt_of_log_eq rfl
    · have A : LogExt g ({ g with player := some p, monster_turn_counter := g.monster_turn_counter + 1 } : Game) := LogExt_of_log_eq rfl
      have B : LogExt ({ g with player := some p, monster_turn_counter := g.monster_turn_counter + 1 } : Game) (monstersLoop o ({ g with player := some p, monster_turn_counter := g.monster_turn_counter + 1 } : Game).monsters.length 0 ({ g with player := some p, monster_turn_counter := g.monster_turn_counter + 1 } : Game)) := monstersLoop_logext o _ 0 _
      exact LogExt_trans (LogExt_trans A B) (LogExt_of_log_eq rfl)

theorem check_pickup_logext (g : Game) : LogExt g (check_pickup g) := by
  unfold check_pickup
  cases hp : g.player with
  | none => exact LogExt_refl g
  | some p =>
    dsimp only
    cases hit : get_item_at g p.x p.y with
    | none => exact LogExt_refl g
    | some item =>
      dsimp only
      split
      · refine LogExt_trans (LogExt_of_log_eq ?_) (LogExt_send_osc_state _ _ (by decide))
        exact auto_equip_log _ _
      · split
        · refine LogExt_trans (LogExt_of_log_eq ?_) (LogExt_send_osc_state _ _ (by decide))
          split <;> rfl
        · exact LogExt_of_log_eq rfl

theorem wait_turn_logext (g : Game) (t : TickOracle) : LogExt g (wait_turn g t) := by
  unfold wait_turn
  refine LogExt_trans ?_ (LogExt_send_osc_state _ _ (by decide))
  refine LogExt_trans ?_ (monsters_take_turns_logext _ t)
  exact LogExt_of_log_eq rfl

/-- A `move_player` call whose destination is in bounds appends no edge-bump
datagram, whatever branch it takes. -/
theorem move_player_logext (g : Game) (dx dy : Int) (mo : MoveOracle) (g' : Game) (p : Entity)
    (hp : g.player = some p)
    (hb : in_bounds g (p.x + dx) (p.y + dy) = true)
    (h : move_player g dx dy mo = some g') : LogExt g g' := by
  unfold move_player at h
  rw [hp] at h
  dsimp only at h
  split at h
  · rename_i hnb
    exact absurd hb hnb
  · split at h
    · rename_i ti hti
      cases Option.some.inj h
      refine LogExt_trans ?_ (LogExt_send_osc_state _ _ (by decide))
      refine LogExt_trans ?_ (monsters_take_turns_logext _ mo.tick)
      split
      · split
        · refine LogExt_trans ?_ (LogExt_osc_send _ _ _ (by decide))
          exact LogExt_of_log_eq rfl
        · exact LogExt_of_log_eq rfl
      · exact LogExt_of_log_eq rfl
    · split at h
      · have L := new_level_logext _ false mo.gen g' h
        exact L
      · cases Option.some.inj h
        refine LogExt_trans ?_ (LogExt_send_osc_state _ _ (by decide))
        refine LogExt_trans ?_ (monsters_take_turns_logext _ mo.tick)
        exact check_pickup_logext _
      · cases Option.some.inj h
        refine LogExt_trans ?_ (LogExt_send_osc_state _ _ (by decide))
        exact LogExt_of_log_eq rfl

/-- In every reachable state the player stands strictly inside the border
ring. -/
theorem reachable_player_interior (g : Game) (hr : Reachable g) :
    ∃ p : Entity, g.player = some p ∧
      1 ≤ p.x ∧ p.x ≤ (g.width : Int) - 2 ∧ 1 ≤ p.y ∧ p.y ≤ (g.height : Int) - 2 := by
  obtain ⟨hw, hh, _, _, ⟨p, hp, _, hfl⟩, htl, _, _⟩ := reachable_inv g hr
  refine ⟨p, hp, ?_⟩
  have hq : g.tiles (p.x, p.y) ≠ Tile.wall := by
    rw [hfl]
    exact fun hcon => Tile.noConfusion hcon
  exact htl (p.x, p.y) hq

/-- From the interior, every one of the server's four unit moves lands in
bounds, so the edge branch cannot be taken. -/
theorem reachable_unit_in_bounds (g : Game) (hr : Reachable g) (p : Entity)
    (hp : g.player = some p) (d : Int × Int) (hd : d ∈ unit_vectors) :
    in_bounds g (p.x + d.1) (p.y + d.2) = true := by
  obtain ⟨q, hq, h1, h2, h3, h4⟩ := reachable_player_interior g hr
  rw [hp] at hq
  cases Option.some.inj hq
  have hw : 3 ≤ g.width := (reachable_inv g hr).hw
  have hh : 3 ≤ g.height := (reachable_inv g hr).hh
  fin_cases hd <;> (dsimp only; simp only [in_bounds, decide_eq_true_eq]; omega)

/-- The edge-bump datagram is absent from every reachable state's log: the
out-of-bounds branch of `move_player` never runs under the server's moves. -/
theorem reachable_nobump (g : Game) (h : Reachable g) :
    bump_edge_event ∉ g.osc_log := by
  induction h with
  | start w h nm ni o g hw hh hg =>
    unfold game_start at hg
    cases hnl : new_level (initGame w h nm ni) true o with
    | none => rw [hnl] at hg; exact Option.noConfusion hg
    | some g1 =>
      rw [hnl] at hg
      simp only [Option.map_some'] at hg
      cases Option.some.inj hg
      have L := LogExt_trans (new_level_logext _ true o g1 hnl)
        (LogExt_send_osc_state g1 "game_start" (by decide))
      intro hmem
      rcases L _ hmem with h1 | h1
      · exact absurd h1 (List.not_mem_nil _)
      · exact h1 rfl
  | move g g' dx dy mo hd hr hm ih =>
    obtain ⟨p, hp, _⟩ := reachable_player_interior g hr
    have hb := reachable_unit_in_bounds g hr p hp (dx, dy) hd
    have L := move_player_logext g dx dy mo g' p hp hb hm
    intro hmem
    rcases L _ hmem with h1 | h1
    · exact ih h1
    · exact h1 rfl
  | wait g t hr ih =>
    intro hmem
    rcases wait_turn_logext g t _ hmem with h1 | h1
    · exact ih h1
    · exact h1 rfl

/-- C10 — in every reachable state the player's position satisfies
`1 ≤ x ≤ width-2` and `1 ≤ y ≤ height-2`; from there every direction of the
server's `moves` table lands inside the grid, so the `in_bounds` guard of
`move_player` always passes and its out-of-bounds `bump_edge` branch is never
executed: no reachable state's OSC log contains the `bump_edge` event
datagram. -/
theorem C10_no_bump_edge (g : Game) (h : Reachable g) :
    (∃ p : Entity, g.player = some p ∧
      1 ≤ p.x ∧ p.x ≤ (g.width : Int) - 2 ∧ 1 ≤ p.y ∧ p.y ≤ (g.height : Int) - 2) ∧
    (∀ p : Entity, g.player = some p → ∀ d ∈ unit_vectors,
      in_bounds g (p.x + d.1) (p.y + d.2) = true) ∧
    bump_edge_event ∉ g.osc_log := by
  refine ⟨reachable_player_interior g h, ?_, reachable_nobump g h⟩
  intro p hp d hd
  exact reachable_unit_in_bounds g h p hp d hd

/- ---------------- C8: THE REJECTION SAMPLING HAS NO RETRY BOUND ---------------- -/

/-- Without an eligible cell the `while True` loop never exits, whatever the
draws: every finite prefix of draws is rejected. -/
theorem find_random_floor_none (g : Game) (h : ∀ q : Pos, eligibleFloor g q = false) :
    ∀ samples : List Pos, find_random_floor g samples = none := by
  intro samples
  induction samples with
  | nil => rfl
  | cons s rest ih => simp [find_random_floor, h s, ih]

/-- Monster placement on a board without an eligible cell fails for every
draw sequence (at least one monster requested). -/
theorem placeMonsters_none (o : GenOracle) (k : Nat) (g : Game)
    (h : ∀ q : Pos, eligibleFloor g q = false) (m : Nat) :
    placeMonsters o (m + 1) k g = none := by
  unfold placeMonsters
  rw [find_random_floor_none g h (o.samples k)]

/-- On a 3×3 board the only interior cell is `(1,1)`. -/
theorem interior33 (q : Pos) (h : interiorWH 3 3 q) : q = (1, 1) := by
  obtain ⟨h1, h2, h3, h4⟩ := h
  have hx : q.1 = 1 := by omega
  have hy : q.2 = 1 := by omega
  exact Prod.ext hx hy

/-- On a 3×3 board the walker can only ever paint `(1,1)`. -/
theorem walk33 (g0 : Game) (o : GenOracle) (q : Pos) (hw : g0.width = 3)
    (hh : g0.height = 3) (hf : walkGrid g0 o q = Tile.floor) : q = (1, 1) := by
  rw [walkGrid_floor_iff] at hf
  have hint := walkCells_interior g0.width g0.height (by omega) (by omega)
    (walkDirs g0 o) (startPos g0)
    (startPos_interior g0 (by omega) (by omega)) q hf
  rw [hw, hh] at hint
  exact interior33 q hint

/-- C8 — the floor search is unbounded rejection sampling: on a state with no
eligible cell it returns nothing for every finite draw sequence (the loop
never exits); when an eligible cell is drawn it returns it (termination is
guaranteed exactly when an eligible floor cell exists to be drawn); and the
degenerate 3×3 configuration with one monster makes `Game()` construction
diverge under every outcome of the random choices, because the walk can paint
only the single interior cell, which the player then occupies. -/
theorem C8_rejection_sampling_unbounded :
    (∀ g : Game, (∀ q : Pos, eligibleFloor g q = false) →
      ∀ samples : List Pos, find_random_floor g samples = none) ∧
    (∀ (g : Game) (e : Pos), eligibleFloor g e = true →
      find_random_floor g [e] = some e) ∧
    (∀ o : GenOracle, game_start 3 3 1 0 o = none) := by
  refine ⟨find_random_floor_none, ?_, ?_⟩
  · intro g e he
    simp [find_random_floor, he]
  · intro o
    unfold game_start
    suffices hnl : new_level (initGame 3 3 1 0) true o = none by rw [hnl]; rfl
    unfold new_level
    cases hpp : placePlayer (paintedGame (initGame 3 3 1 0) true o) true (o.samples 0) with
    | none => rfl
    | some g3 =>
      obtain ⟨pp, hppE, hg3⟩ := placePlayer_spec _ _ _ _ hpp
      have hnm : g3.num_monsters = 1 := by rw [hg3]; rfl
      have hpl : g3.player = some ⟨pp.1, pp.2, "@", "Player", MAX_HP⟩ := by
        rw [hg3]; rfl
      have htl : g3.tiles = walkGrid (initGame 3 3 1 0) o := by
        rw [hg3]; rfl
      have hf : walkGrid (initGame 3 3 1 0) o pp = Tile.floor := by
        rw [← htl, hg3]
        exact (eligibleFloor_spec _ _ hppE).1
      have hpp11 : pp = (1, 1) := walk33 _ o pp rfl rfl hf
      subst hpp11
      have hall : ∀ q : Pos, eligibleFloor { g3 with monsters := ([] : List Entity) } q = false := by
        intro q
        by_cases hq : q = (1, 1)
        · subst hq
          simp [eligibleFloor, get_entity_at, hpl]
        · have hnf : ({ g3 with monsters := ([] : List Entity) } : Game).tiles q ≠ Tile.floor := by
            intro hcon
            refine hq (walk33 (initGame 3 3 1 0) o q rfl rfl ?_)
            rw [← htl]
            exact hcon
          simp [eligibleFloor, hnf]
      have hpm : placeMonsters o g3.num_monsters 1 { g3 with monsters := ([] : List Entity) } = none := by
        nth_rewrite 1 [hnm]
        exact placeMonsters_none o 1 _ hall 0
      dsimp only [Option.bind]
      rw [hpm]

/- ---------------- C1: THE DEAD-MONSTER SWEEP ---------------- -/

/-- C1 is false as stated: after the odd-numbered scheduler invocation of a
killing blow, the dead monster stays in the collection (hp ≤ 0) and the
serialized snapshot's monster list still carries it, because
`monsters_take_turns` returns before its dead-monster filter on odd counter
values. -/
theorem C1_dead_monster_counterexample :
    Reachable cexAfter ∧
    cexAfter.monsters.any (fun m => decide (m.hp ≤ 0)) = true ∧
    (serialize cexAfter).map
      (fun s => s.monsters.any (fun m => decide (m.hp ≤ 0))) = some true := by
  refine ⟨?_, rfl, rfl⟩
  exact Reachable.move cexStart cexAfter 1 0 cexMove (by decide)
    (Reachable.start 5 5 1 0 cexGen cexStart (by decide) (by decide) rfl) rfl

/-- C1 — corrected: the dead-monster sweep runs only on scheduler invocations
whose incremented counter is even; after such an invocation every monster left
in the collection has positive hit points, and the spatial query
`get_monster_at` never returns a monster with hp ≤ 0. (On an odd invocation
the scheduler returns before the sweep, so a monster killed by that player
action stays in the collection until the next acting tick — see the
counterexample.) -/
theorem C1_dead_removed_even_ticks (g : Game) (t : TickOracle) (p : Entity)
    (hp : g.player = some p)
    (heven : (g.monster_turn_counter + 1) % 2 = 0) :
    (∀ m ∈ (monsters_take_turns g t).monsters, 0 < m.hp) ∧
    (∀ (x y : Int) (m : Entity), get_monster_at g x y = some m → 0 < m.hp) := by
  constructor
  · unfold monsters_take_turns
    rw [hp]
    dsimp only
    rw [if_neg (by omega : ¬(g.monster_turn_counter + 1) % 2 = 1)]
    intro m hm
    exact of_decide_eq_true (List.mem_filter.mp hm).2
  · intro x y m hm
    have hb := List.find?_some hm
    exact (of_decide_eq_true hb).2.2

/- ---------------- WITNESSES ---------------- -/

theorem C1_dead_removed_witness :
    (monsters_take_turns cexAfter cexTick).monsters.all
      (fun m => decide (0 < m.hp)) = true := by
  have H := C1_dead_removed_even_ticks cexAfter cexTick
    ⟨2, 2, "@", "Player", MAX_HP⟩ rfl (by decide)
  rw [List.all_eq_true]
  intro m hm
  exact decide_eq_true (H.1 m hm)

theorem C3_stairs_reachable_witness :
    Reach cexL.tiles (2, 2) (3, 1) := by
  have H := C3_stairs_reachable (initGame 5 5 1 0) true cexGen cexL
    (by decide) (by decide) rfl ⟨2, 2, "@", "Player", MAX_HP⟩ rfl (3, 1) rfl
  exact H

theorem C5_half_speed_witness :
    (monsters_take_turns cexStart cexTick).monster_turn_counter =
      cexStart.monster_turn_counter + 1 :=
  (C5_half_speed_scheduler cexStart cexTick ⟨2, 2, "@", "Player", MAX_HP⟩ rfl).1

theorem C7_descend_frame_witness :
    cexDesc.level = cexStart.level + 1 := by
  have hpl : cexStart.player = some ⟨2, 2, "@", "Player", MAX_HP⟩ := rfl
  have hb : in_bounds cexStart ((⟨2, 2, "@", "Player", MAX_HP⟩ : Entity).x + 1)
      ((⟨2, 2, "@", "Player", MAX_HP⟩ : Entity).y + -1) = true := by decide
  have hm : get_monster_at cexStart ((⟨2, 2, "@", "Player", MAX_HP⟩ : Entity).x + 1)
      ((⟨2, 2, "@", "Player", MAX_HP⟩ : Entity).y + -1) = none := by decide
  have ht : cexStart.tiles ((⟨2, 2, "@", "Player", MAX_HP⟩ : Entity).x + 1,
      (⟨2, 2, "@", "Player", MAX_HP⟩ : Entity).y + -1) = Tile.stairsDown := by decide
  have h : move_player cexStart 1 (-1) cexMove7 = some cexDesc := rfl
  exact (C7_descend_frame cexStart 1 (-1) cexMove7 ⟨2, 2, "@", "Player", MAX_HP⟩
    cexDesc hpl hb hm ht h).1

theorem C10_no_bump_edge_witness :
    bump_edge_event ∉ cexStart.osc_log :=
  (C10_no_bump_edge cexStart
    (Reachable.start 5 5 1 0 cexGen cexStart (by decide) (by decide) rfl)).2.2
